import Mathlib

/-!
Shallow embedding of the SIV integrity verifier (src/siv.cpp).

The OS-facing capabilities (stat, owner and group name resolution, the two
Crypto++ digest routines) are modelled as an explicit environment, exactly as
the specification treats them: opaque functions supplied from outside.  All
control flow, string formatting, header slicing, map building and the diff
loops are translated line by line from the source.
-/

namespace Siv

/-- Error kinds of the specification.  The source program exits with a message;
each exit site is mapped to the corresponding specification error kind.
The constructor malformedSnapshot exists so that spec-level statements about
it can be made; crashOutOfRange models an uncaught std::out_of_range thrown
by std::string::substr. -/
inductive SivError where
  | pathNotFound
  | pathConflict
  | badReportExt
  | unsupportedAlgorithm
  | malformedSnapshot
  | missingArg
  | crashOutOfRange
deriving DecidableEq, Repr

/-- Result of the stat capability for one entry (siv.cpp lines 131-165).
The last-modified time is kept as the already-formatted text the program
produces with strftime, since time formatting is done by the OS layer. -/
structure StatInfo where
  size : Nat
  uid : Nat
  gid : Nat
  mode : Nat
  mtime : String
deriving DecidableEq, Repr

/-- One filesystem entry delivered by the directory walk, together with the
bytes the hashing step would read. -/
structure Entry where
  path : String
  isDir : Bool
  st : StatInfo
  content : String
deriving DecidableEq, Repr

/-- External collaborators: filesystem state, name resolution and digests. -/
structure Env where
  dirExists : Bool
  entries : List Entry
  userName : Nat → String
  groupName : Nat → String
  md5 : String → String
  sha1 : String → String

/-- The seven fields of one snapshot record, all kept as the text the
program writes (siv.cpp lines 129-180 build exactly this line). -/
structure FileMetadata where
  path : String
  sizeStr : String
  owner : String
  group : String
  perms : String
  mtime : String
  digest : String
deriving DecidableEq, Repr

/-- Octal rendering, as ostringstream with std::oct produces it. -/
def octStr (n : Nat) : String := ⟨Nat.toDigits 8 n⟩

/-- The tab-separated data line for a record, without the trailing newline. -/
def tsvLine (m : FileMetadata) : String :=
  m.path ++ "\t" ++ m.sizeStr ++ "\t" ++ m.owner ++ "\t" ++ m.group ++ "\t"
    ++ m.perms ++ "\t" ++ m.mtime ++ "\t" ++ m.digest

/-- hashFile (siv.cpp lines 86-124): the file content has already been read
when the algorithm name is tested; an unknown name makes the program exit. -/
def hashFileM (env : Env) (content hashF : String) : Except SivError String :=
  if hashF = "md5" then .ok (env.md5 content)
  else if hashF = "sha1" then .ok (env.sha1 content)
  else .error .unsupportedAlgorithm

/-- The record captured for one entry (siv.cpp lines 129-180).
The group column receives pw.pw_name: siv.cpp line 149 appends the owner
name a second time and the getgrgid result is never used. -/
def captureMeta (env : Env) (e : Entry) (hashF : String) : Except SivError FileMetadata :=
  match (if e.isDir then Except.ok "directory" else hashFileM env e.content hashF) with
  | .error err => .error err
  | .ok dg =>
      .ok ⟨e.path, toString e.st.size, env.userName e.st.uid, env.userName e.st.uid,
           octStr (e.st.mode % 512), e.st.mtime, dg⟩

/-- Observable I/O events, used to express ordering claims. -/
inductive Event where
  | statEntry (p : String)
  | hashEntry (p : String)
  | readVFile (p : String)
  | openVFile (p : String)
  | openRFile (p : String)
deriving DecidableEq, Repr

/-- createTsvString (siv.cpp lines 129-180) with its I/O events: every entry
is stat'd; regular files are additionally hashed. -/
def createTsvString (env : Env) (e : Entry) (hashF : String) :
    List Event × Except SivError String :=
  match captureMeta env e hashF with
  | .error err => ([Event.statEntry e.path], .error err)
  | .ok m =>
      (if e.isDir then [Event.statEntry e.path]
       else [Event.statEntry e.path, Event.hashEntry e.path],
       .ok (tsvLine m ++ "\n"))

/-- Prefix test on character lists (needle against the front of the hay). -/
def substrAt : List Char → List Char → Bool
  | [], _ => true
  | _ :: _, [] => false
  | a :: as, b :: bs => a == b && substrAt as bs

/-- Occurrence test: std::string::find(needle) != npos. -/
def findSub (needle : List Char) : List Char → Bool
  | [] => substrAt needle []
  | hay@(_ :: t) => substrAt needle hay || findSub needle t

/-- The substring test the program uses for its path checks. -/
def strContains (hay needle : String) : Bool := findSub needle.data hay.data

/-- Whether c names an entry strictly inside directory p, in the plain
string sense: c starts with p followed by a path separator. -/
def isInsideDir (c p : String) : Bool := substrAt (p ++ "/").data c.data

/-- First line of the verification file. -/
def titleLine : String := "SIV Verification File"

/-- Fourth line of the verification file. -/
def colLine : String :=
  "File Name\tFile Size\tOwner\tGroup\tAccess Rights\tLast Modified\tHash"

/-- The four header lines written by initialize (siv.cpp lines 232-235). -/
def vHeader (dirPath hashF : String) : String :=
  titleLine ++ "\n" ++ ("Directory: " ++ dirPath) ++ "\n"
    ++ ("Hash Function: " ++ hashF) ++ "\n" ++ colLine ++ "\n"

/-- Lexicographic strict order on character lists, the comparison behind
std::string::operator< used by std::map. -/
def lexLt : List Char → List Char → Bool
  | [], [] => false
  | [], _ :: _ => true
  | _ :: _, [] => false
  | a :: as, b :: bs =>
      if a.toNat < b.toNat then true
      else if b.toNat < a.toNat then false
      else lexLt as bs

/-- Strict order on strings, as std::map keys are compared. -/
def strLt (a b : String) : Bool := lexLt a.data b.data

/-- Sorted-map insertion, the behaviour of std::map operator[] assignment. -/
def mapInsert : List (String × String) → String → String → List (String × String)
  | [], k, v => [(k, v)]
  | (k', v') :: t, k, v =>
      if strLt k k' then (k, v) :: (k', v') :: t
      else if k = k' then (k, v) :: t
      else (k', v') :: mapInsert t k v

/-- std::map::find followed by dereference, as an association lookup. -/
def lookupM : List (String × String) → String → Option String
  | [], _ => none
  | (k', v') :: t, k => if k = k' then some v' else lookupM t k

/-- State of the input stream while reading the verification file. -/
structure VStream where
  rest : List Char
  ok : Bool
deriving DecidableEq, Repr

/-- Characters up to the first newline, and the remainder after that newline
(none when the end of input is reached first). -/
def getlineSpan : List Char → List Char × Option (List Char)
  | [] => ([], none)
  | c :: cs =>
      if c = '\n' then ([], some cs)
      else
        let (l, r) := getlineSpan cs
        (c :: l, r)

/-- std::getline on the stream: on a failed read with a live stream the line
is erased; when the stream is already failed the line keeps its old value. -/
def getlineM (s : VStream) (line : String) : VStream × String × Bool :=
  if s.ok then
    match s.rest with
    | [] => (⟨[], false⟩, "", false)
    | _ :: _ =>
        match getlineSpan s.rest with
        | (l, some rest') => (⟨rest', true⟩, ⟨l⟩, true)
        | (l, none) => (⟨[], false⟩, ⟨l⟩, true)
  else (s, line, false)

/-- std::string::substr(pos): out of range when pos exceeds the length. -/
def substrFrom (s : String) (pos : Nat) : Except SivError String :=
  if pos ≤ s.length then .ok ⟨s.data.drop pos⟩ else .error .crashOutOfRange

/-- The map key taken from a data line: substr(0, find(tab)), which is the
whole line when it holds no tab (siv.cpp line 334). -/
def keyOf (line : String) : String := ⟨line.data.takeWhile (fun c => c != '\t')⟩

/-- One pass of the while-getline loop filling vFileDict (siv.cpp 332-336),
with fuel for termination; the fuel always suffices because every successful
read either consumes input or kills the stream. -/
def readRowsAux : Nat → VStream → String → List (String × String) → List (String × String)
  | 0, _, _, acc => acc
  | n + 1, s, line, acc =>
      match getlineM s line with
      | (s', line', true) => readRowsAux n s' line' (mapInsert acc (keyOf line') line')
      | (_, _, false) => acc

/-- Read all remaining lines of the verification file into the keyed map. -/
def readRows (s : VStream) (line : String) : List (String × String) :=
  readRowsAux (s.rest.length + 1) s line []

/-- Reading the four header lines of the verification file
(siv.cpp lines 284-297): two blind slices with no validation. -/
def decodeHeader (text : String) : Except SivError (String × String × VStream × String) :=
  match getlineM ⟨text.data, true⟩ "" with
  | (s1, l1, _) =>
    match getlineM s1 l1 with
    | (s2, l2, _) =>
      match substrFrom l2 11 with
      | .error e => .error e
      | .ok dirPath =>
        match getlineM s2 l2 with
        | (s3, l3, _) =>
          match substrFrom l3 15 with
          | .error e => .error e
          | .ok hashF =>
            match getlineM s3 l3 with
            | (s4, l4, _) => .ok (dirPath, hashF, s4, l4)

/-- Everything the program learns from a verification file. -/
structure DecodedV where
  dirPath : String
  hashF : String
  table : List (String × String)
deriving DecidableEq, Repr

/-- Full decoding of a verification file: header slices then the keyed rows. -/
def decodeSnapshot (text : String) : Except SivError DecodedV :=
  match decodeHeader text with
  | .error e => .error e
  | .ok (dirPath, hashF, s4, l4) => .ok ⟨dirPath, hashF, readRows s4 l4⟩

/-- A snapshot at the specification level: header fields plus records. -/
structure Snapshot where
  dirPath : String
  hashF : String
  entries : List FileMetadata
deriving DecidableEq, Repr

/-- The data lines written for a list of records, one per line. -/
def encodeEntries : List FileMetadata → String
  | [] => ""
  | m :: t => tsvLine m ++ "\n" ++ encodeEntries t

/-- The verification-file text written for a snapshot. -/
def encodeSnapshot (s : Snapshot) : String :=
  vHeader s.dirPath s.hashF ++ encodeEntries s.entries

/-- The character-scanning tab split of the comparison code
(siv.cpp lines 418-447): push at every tab, then push the tail piece. -/
def splitTabAux : List Char → List Char → List String
  | [], temp => [⟨temp⟩]
  | c :: cs, temp =>
      if c = '\t' then String.mk temp :: splitTabAux cs []
      else splitTabAux cs (temp ++ [c])

/-- Split a line at tabs, exactly as the verify loop does. -/
def splitTab (s : String) : List String := splitTabAux s.data []

/-- The per-field comparison of a changed path (siv.cpp lines 449-485),
producing the warning lines in the fixed source order: size, owner, group,
access rights, last-modified, hash. -/
def fieldDiscrepancies (name vl dl : String) : List String :=
  let vs := splitTab vl
  let ds := splitTab dl
  (if vs.getD 1 "" = ds.getD 1 "" then []
   else [name ++ " file size is different: " ++ vs.getD 1 "" ++ " " ++ ds.getD 1 ""]) ++
  ((if vs.getD 2 "" = ds.getD 2 "" then []
    else [name ++ " owner is different: " ++ vs.getD 2 "" ++ " " ++ ds.getD 2 ""]) ++
  ((if vs.getD 3 "" = ds.getD 3 "" then []
    else [name ++ " group is different: " ++ vs.getD 3 "" ++ " " ++ ds.getD 3 ""]) ++
  ((if vs.getD 4 "" = ds.getD 4 "" then []
    else [name ++ " access rights are different: " ++ vs.getD 4 "" ++ " " ++ ds.getD 4 ""]) ++
  ((if vs.getD 5 "" = ds.getD 5 "" then []
    else [name ++ " last modified time is different: " ++ vs.getD 5 "" ++ " " ++ ds.getD 5 ""]) ++
  (if vs.getD 6 "" = ds.getD 6 "" then []
   else [name ++ " hash is different: " ++ vs.getD 6 "" ++ " " ++ ds.getD 6 ""])))))

/-- First comparison loop, changed branch (siv.cpp lines 360-373): paths in
the verification map whose stored line differs from the fresh line. -/
def changedFiles (v d : List (String × String)) : List String :=
  v.filterMap fun kv =>
    match lookupM d kv.1 with
    | some dl => if kv.2 = dl then none else some kv.1
    | none => none

/-- First comparison loop, deleted branch (siv.cpp lines 374-378). -/
def deletedFiles (v d : List (String × String)) : List String :=
  v.filterMap fun kv =>
    match lookupM d kv.1 with
    | some _ => none
    | none => some kv.1

/-- Second comparison loop (siv.cpp lines 382-389): fresh paths missing
from the verification map. -/
def newFiles (v d : List (String × String)) : List String :=
  d.filterMap fun kv =>
    match lookupM v kv.1 with
    | some _ => none
    | none => some kv.1

/-- The field comparison performed for one changed path, with the map
accesses the warning loop does (siv.cpp lines 409-411). -/
def discrepanciesFor (v d : List (String × String)) (p : String) : List String :=
  fieldDiscrepancies p ((lookupM v p).getD "") ((lookupM d p).getD "")

/-- The complete warning list (siv.cpp lines 391-485): deleted warnings,
then new warnings, then the per-field warnings of every changed path. -/
def warningsList (v d : List (String × String)) : List String :=
  (deletedFiles v d).map (fun p => p ++ " is deleted") ++
  (newFiles v d).map (fun p => p ++ " is new") ++
  (changedFiles v d).flatMap (fun p => discrepanciesFor v d p)

/-- Newline-separated concatenation, as repeated stream-insertion produces. -/
def joinNl : List String → String
  | [] => ""
  | w :: t => w ++ "\n" ++ joinNl t

/-- The verification report text (siv.cpp lines 488-504). -/
def reportText (dirPath vFilePath hashF : String) (fileNum dirNum delN newN chgN : Nat)
    (warnings : List String) : String :=
  "SIV Report File\n" ++ "Directory: " ++ dirPath ++ "\n"
    ++ "Verification File: " ++ vFilePath ++ "\n"
    ++ "Hash Function: " ++ hashF ++ "\n"
    ++ "Number of Parsed Files: " ++ toString fileNum ++ "\n"
    ++ "Number of Parsed Directories: " ++ toString dirNum ++ "\n"
    ++ "Number of Deleted Files: " ++ toString delN ++ "\n"
    ++ "Number of New Files: " ++ toString newN ++ "\n"
    ++ "Number of Changed Files: " ++ toString chgN ++ "\n"
    ++ "Warnings:\n" ++ joinNl warnings

/-- Removal of every newline character, std::remove followed by erase
(siv.cpp line 344). -/
def stripNl (s : String) : String := ⟨s.data.filter (fun c => c != '\n')⟩

/-- Output of the successful initialization walk: verification-file text and
the two counters. -/
structure InitOut where
  vText : String
  fileNum : Nat
  dirNum : Nat
deriving DecidableEq, Repr

/-- The directory walk of initialize (siv.cpp lines 238-252), appending one
line per entry to the verification file and counting files and directories;
a failing hash aborts the program mid-walk. -/
def collectInitAux (env : Env) (hashF : String) :
    List Entry → String → Nat → Nat → List Event × Except SivError (String × Nat × Nat)
  | [], acc, f, d => ([], .ok (acc, f, d))
  | e :: rest, acc, f, d =>
      match createTsvString env e hashF with
      | (evs, .error err) => (evs, .error err)
      | (evs, .ok line) =>
          match collectInitAux env hashF rest (acc ++ line)
              (if e.isDir then f else f + 1) (if e.isDir then d + 1 else d) with
          | (evs', r) => (evs ++ evs', r)

/-- initialize (siv.cpp lines 187-266): existence check, the three substring
conflict checks, the report-extension check, then the walk and the writes. -/
def initializeRun (env : Env) (dirPath vFilePath rFilePath hashF : String) :
    List Event × Except SivError InitOut :=
  if env.dirExists = false then ([], .error .pathNotFound)
  else if strContains vFilePath dirPath then ([], .error .pathConflict)
  else if strContains rFilePath dirPath then ([], .error .pathConflict)
  else if vFilePath = rFilePath then ([], .error .pathConflict)
  else if strContains rFilePath ".txt" = false then ([], .error .badReportExt)
  else
    match collectInitAux env hashF env.entries (vHeader dirPath hashF) 0 0 with
    | (evs, .error e) => (Event.openVFile vFilePath :: evs, .error e)
    | (evs, .ok (txt, f, d)) =>
        (Event.openVFile vFilePath :: evs ++ [Event.openRFile rFilePath], .ok ⟨txt, f, d⟩)

/-- The argument checks main performs for initialization mode
(siv.cpp lines 562-587 and 603-608) before calling initialize. -/
def mainInitRun (env : Env) (dirPath vFilePath rFilePath hashF : String) :
    List Event × Except SivError InitOut :=
  if dirPath = "" then ([], .error .missingArg)
  else if vFilePath = "" then ([], .error .missingArg)
  else if rFilePath = "" then ([], .error .missingArg)
  else if hashF = "" then ([], .error .missingArg)
  else if hashF ≠ "md5" ∧ hashF ≠ "sha1" then ([], .error .unsupportedAlgorithm)
  else initializeRun env dirPath vFilePath rFilePath hashF

/-- The directory walk of verify (siv.cpp lines 338-354), building the keyed
map of fresh lines with the newline stripped, and counting entries. -/
def collectVerifyAux (env : Env) (hashF : String) :
    List Entry → List (String × String) → Nat → Nat →
    List Event × Except SivError (List (String × String) × Nat × Nat)
  | [], acc, f, d => ([], .ok (acc, f, d))
  | e :: rest, acc, f, d =>
      match createTsvString env e hashF with
      | (evs, .error err) => (evs, .error err)
      | (evs, .ok line) =>
          match collectVerifyAux env hashF rest (mapInsert acc e.path (stripNl line))
              (if e.isDir then f else f + 1) (if e.isDir then d + 1 else d) with
          | (evs', r) => (evs ++ evs', r)

/-- What the verification run produces when it completes. -/
structure VerifyOut where
  rText : String
deriving DecidableEq, Repr

/-- verify (siv.cpp lines 271-505): existence check, header slicing, the
conflict and extension checks, the stored rows, the fresh walk, the diff
and the report.  The first argument position carries the verification-file
bytes, none when the file does not exist. -/
def verifyRun (env : Env) (vTextOpt : Option String) (vFilePath rFilePath : String) :
    List Event × Except SivError VerifyOut :=
  match vTextOpt with
  | none => ([], .error .pathNotFound)
  | some text =>
    match decodeHeader text with
    | .error e => ([Event.readVFile vFilePath], .error e)
    | .ok (dirPath, hashF, s4, l4) =>
      if strContains vFilePath dirPath then ([Event.readVFile vFilePath], .error .pathConflict)
      else if strContains rFilePath dirPath then ([Event.readVFile vFilePath], .error .pathConflict)
      else if vFilePath = rFilePath then ([Event.readVFile vFilePath], .error .pathConflict)
      else if strContains rFilePath ".txt" = false then
        ([Event.readVFile vFilePath], .error .badReportExt)
      else
        let vTable := readRows s4 l4
        match collectVerifyAux env hashF env.entries [] 0 0 with
        | (evs, .error e) => (Event.readVFile vFilePath :: evs, .error e)
        | (evs, .ok (dTable, fileNum, dirNum)) =>
            (Event.readVFile vFilePath :: evs ++ [Event.openRFile rFilePath],
             .ok ⟨reportText dirPath vFilePath hashF fileNum dirNum
                    (deletedFiles vTable dTable).length (newFiles vTable dTable).length
                    (changedFiles vTable dTable).length (warningsList vTable dTable)⟩)

/-- The keyed store built from a list of records, with the record path as
key and the data line as value, one std::map assignment per record. -/
def storeOfMetas (l : List FileMetadata) : List (String × String) :=
  l.foldl (fun a m => mapInsert a m.path (tsvLine m)) []

/-- A string free of tab and newline characters. -/
def cleanStr (s : String) : Bool := s.data.all (fun c => c != '\t' && c != '\n')

/-- A record whose seven fields are all free of tab and newline characters,
so that its data line parses back into exactly these fields. -/
def cleanMeta (m : FileMetadata) : Bool :=
  cleanStr m.path && cleanStr m.sizeStr && cleanStr m.owner && cleanStr m.group
    && cleanStr m.perms && cleanStr m.mtime && cleanStr m.digest

/-- Keys in strictly increasing order, the std::map representation invariant. -/
def mapSorted (m : List (String × String)) : Prop :=
  m.Pairwise (fun a b => strLt a.1 b.1 = true)

/-- A list of strings in strictly increasing lexicographic order. -/
def pathSorted (l : List String) : Prop :=
  l.Pairwise (fun a b => strLt a b = true)

instance (m : List (String × String)) : Decidable (mapSorted m) := by
  unfold mapSorted; infer_instance

instance (l : List String) : Decidable (pathSorted l) := by
  unfold pathSorted; infer_instance

/-- The first getline performed on the verification file. -/
def hdr1 (text : String) : VStream × String × Bool := getlineM ⟨text.data, true⟩ ""

/-- The second getline, delivering the Directory header line. -/
def hdr2 (text : String) : VStream × String × Bool := getlineM (hdr1 text).1 (hdr1 text).2.1

/-- The third getline, delivering the Hash Function header line. -/
def hdr3 (text : String) : VStream × String × Bool := getlineM (hdr2 text).1 (hdr2 text).2.1

/-- The fourth getline, skipping the column header line. -/
def hdr4 (text : String) : VStream × String × Bool := getlineM (hdr3 text).1 (hdr3 text).2.1

/-- A concrete environment: empty directory, owner resolves to alice and
group to staff, both digests are the identity on the content. -/
def envC1 : Env := ⟨true, [], fun _ => "alice", fun _ => "staff", fun s => s, fun s => s⟩

/-- A concrete regular-file entry owned by uid 1000 and gid 1000. -/
def entryC1 : Entry := ⟨"/data/f.txt", false, ⟨5, 1000, 1000, 420, "2022-01-01 00:00:00"⟩, "hi"⟩

/-- A concrete environment whose directory holds one regular file. -/
def envC4 : Env :=
  ⟨true, [⟨"/data/a.txt", false, ⟨12, 1000, 1000, 420, "2022-01-01 00:00:00"⟩, "hello"⟩],
   fun _ => "alice", fun _ => "staff", fun s => s, fun s => s⟩

/-- A verification file whose header names an unregistered hash algorithm. -/
def vtextC4 : String :=
  "SIV Verification File\nDirectory: /data\nHash Function: sha256\nFile Name\tFile Size\tOwner\tGroup\tAccess Rights\tLast Modified\tHash\n"

/-- A well-formed empty verification file for the directory /data. -/
def vtextC6 : String :=
  "SIV Verification File\nDirectory: /data\nHash Function: md5\nFile Name\tFile Size\tOwner\tGroup\tAccess Rights\tLast Modified\tHash\n"

/-- A verification file whose single data line has two fields, not seven. -/
def badArityText : String :=
  "SIV Verification File\nDirectory: /data\nHash Function: md5\nFile Name\tFile Size\tOwner\tGroup\tAccess Rights\tLast Modified\tHash\n/data/a\tjunk\n"

/-- A concrete two-entry snapshot with clean fields and distinct paths. -/
def snapC3 : Snapshot :=
  ⟨"/data", "md5",
   [⟨"/data/a.txt", "12", "alice", "alice", "644", "2022-01-01 10:20:30", "0AF3"⟩,
    ⟨"/data/sub", "4096", "alice", "alice", "755", "2022-01-02 11:22:33", "directory"⟩]⟩

/-- A concrete clean record. -/
def mA : FileMetadata :=
  ⟨"/data/a", "1", "alice", "alice", "644", "2022-01-01 00:00:00", "0AF3"⟩

/-- The same record with only the digest changed. -/
def mA2 : FileMetadata :=
  ⟨"/data/a", "1", "alice", "alice", "644", "2022-01-01 00:00:00", "B2C4"⟩

/-- A concrete baseline store holding the single record mA. -/
def vC8 : List (String × String) := [("/data/a", tsvLine mA)]

/-- A concrete current store holding the single record mA2. -/
def dC8 : List (String × String) := [("/data/a", tsvLine mA2)]

/-! Basic facts about strings and the lexicographic order. -/

theorem strExt {a b : String} (h : a.data = b.data) : a = b := congrArg String.mk h

theorem dataAppend (a b : String) : (a ++ b).data = a.data ++ b.data := rfl

theorem lexLt_irrefl : ∀ l : List Char, lexLt l l = false := by
  intro l
  induction l with
  | nil => rfl
  | cons c cs ih => simp [lexLt, ih]

theorem strLt_irrefl (a : String) : strLt a a = false := lexLt_irrefl a.data

theorem strLt_ne {a b : String} (h : strLt a b = true) : a ≠ b := by
  intro he; rw [he, strLt_irrefl] at h; exact Bool.false_ne_true h

theorem charToNat_inj {a b : Char} (h : a.toNat = b.toNat) : a = b :=
  Char.ext (UInt32.ext h)

theorem lexLt_trans : ∀ {a b c : List Char},
    lexLt a b = true → lexLt b c = true → lexLt a c = true := by
  intro a
  induction a with
  | nil =>
    intro b c hab hbc
    cases b with
    | nil => simp [lexLt] at hab
    | cons y ys =>
      cases c with
      | nil => simp [lexLt] at hbc
      | cons z zs => simp [lexLt]
  | cons x xs ih =>
    intro b c hab hbc
    cases b with
    | nil => simp [lexLt] at hab
    | cons y ys =>
      cases c with
      | nil => simp [lexLt] at hbc
      | cons z zs =>
        simp only [lexLt] at hab hbc ⊢
        split_ifs at hab hbc ⊢ <;>
          first
            | rfl
            | exact ih hab hbc
            | omega

theorem strLt_trans {a b c : String} (h1 : strLt a b = true) (h2 : strLt b c = true) :
    strLt a c = true := lexLt_trans h1 h2

theorem lexLt_antisym : ∀ {a b : List Char},
    lexLt a b = false → lexLt b a = false → a = b := by
  intro a
  induction a with
  | nil =>
    intro b hab _
    cases b with
    | nil => rfl
    | cons y ys => simp [lexLt] at hab
  | cons x xs ih =>
    intro b hab hba
    cases b with
    | nil => simp [lexLt] at hba
    | cons y ys =>
      simp only [lexLt] at hab hba
      by_cases h1 : x.toNat < y.toNat
      · rw [if_pos h1] at hab
        exact absurd hab (by simp)
      · by_cases h2 : y.toNat < x.toNat
        · rw [if_pos h2] at hba
          exact absurd hba (by simp)
        · rw [if_neg h1, if_neg h2] at hab
          rw [if_neg h2, if_neg h1] at hba
          have hxy : x = y := charToNat_inj (by omega)
          rw [hxy, ih hab hba]

theorem strLt_total {a b : String} (h1 : strLt a b = false) (h2 : a ≠ b) :
    strLt b a = true := by
  cases hba : strLt b a with
  | true => rfl
  | false => exact absurd (strExt (lexLt_antisym h1 hba)) h2

/-! Facts about the sorted map. -/

theorem mem_mapInsert {m : List (String × String)} {k v : String} {x : String × String}
    (h : x ∈ mapInsert m k v) : x = (k, v) ∨ x ∈ m := by
  induction m with
  | nil => simpa [mapInsert] using h
  | cons kv t ih =>
    obtain ⟨k', v'⟩ := kv
    simp only [mapInsert] at h
    split_ifs at h with h1 h2
    · simpa using h
    · rcases List.mem_cons.mp h with h | h
      · exact Or.inl h
      · exact Or.inr (List.mem_cons_of_mem _ h)
    · rcases List.mem_cons.mp h with h | h
      · exact Or.inr (List.mem_cons.mpr (Or.inl h))
      · rcases ih h with h | h
        · exact Or.inl h
        · exact Or.inr (List.mem_cons_of_mem _ h)

theorem lookupM_mapInsert (m : List (String × String)) (k v j : String) :
    lookupM (mapInsert m k v) j = if j = k then some v else lookupM m j := by
  induction m with
  | nil => simp [mapInsert, lookupM]
  | cons kv t ih =>
    obtain ⟨k', v'⟩ := kv
    by_cases hlt : strLt k k' = true
    · rw [show mapInsert ((k', v') :: t) k v = (k, v) :: (k', v') :: t from by
        simp [mapInsert, hlt]]
      rfl
    · by_cases heq : k = k'
      · rw [show mapInsert ((k', v') :: t) k v = (k, v) :: t from by
          simp [mapInsert, hlt, heq, strLt_irrefl]]
        subst heq
        by_cases hj : j = k <;> simp [lookupM, hj]
      · rw [show mapInsert ((k', v') :: t) k v = (k', v') :: mapInsert t k v from by
          simp [mapInsert, hlt, heq]]
        by_cases hj : j = k'
        · have hjk : ¬ j = k := fun he => heq (he.symm.trans hj)
          have hk'k : ¬ k' = k := fun he => heq he.symm
          simp [lookupM, hj, hjk, hk'k]
        · by_cases hjk : j = k
          · subst hjk
            simp [lookupM, hj, ih, heq]
          · simp [lookupM, hj, hjk, ih, heq]

theorem mapInsert_sorted {m : List (String × String)} (k v : String)
    (h : mapSorted m) : mapSorted (mapInsert m k v) := by
  induction m with
  | nil => simp [mapInsert, mapSorted]
  | cons kv t ih =>
    obtain ⟨k', v'⟩ := kv
    rw [mapSorted, List.pairwise_cons] at h
    obtain ⟨h1, h2⟩ := h
    simp only [mapInsert]
    split_ifs with hlt heq
    · rw [mapSorted, List.pairwise_cons]
      refine ⟨?_, List.Pairwise.cons h1 h2⟩
      intro x hx
      rcases List.mem_cons.mp hx with h | h
      · subst h; exact hlt
      · exact strLt_trans hlt (h1 x h)
    · subst heq
      rw [mapSorted, List.pairwise_cons]
      exact ⟨h1, h2⟩
    · rw [mapSorted, List.pairwise_cons]
      refine ⟨?_, ih h2⟩
      intro x hx
      rcases mem_mapInsert hx with h | h
      · subst h
        show strLt k' k = true
        exact strLt_total (by simpa using hlt) heq
      · exact h1 x h

theorem lookup_some_of_mem {m : List (String × String)} {k w : String}
    (h : (k, w) ∈ m) : ∃ w', lookupM m k = some w' := by
  induction m with
  | nil => simp at h
  | cons kv t ih =>
    obtain ⟨k', v'⟩ := kv
    rcases List.mem_cons.mp h with h | h
    · rw [Prod.mk.injEq] at h
      obtain ⟨h1, _⟩ := h
      subst h1
      exact ⟨v', by simp [lookupM]⟩
    · by_cases hk : k = k'
      · exact ⟨v', by simp [lookupM, hk]⟩
      · obtain ⟨w', hw⟩ := ih h
        exact ⟨w', by simp [lookupM, hk, hw]⟩

theorem mem_of_lookup_some {m : List (String × String)} {k w : String}
    (h : lookupM m k = some w) : (k, w) ∈ m := by
  induction m with
  | nil => simp [lookupM] at h
  | cons kv t ih =>
    obtain ⟨k', v'⟩ := kv
    by_cases hk : k = k'
    · subst hk
      simp [lookupM] at h
      simp [h]
    · simp [lookupM, hk] at h
      exact List.mem_cons_of_mem _ (ih h)

theorem lookup_eq_of_mem_sorted {m : List (String × String)} {k w : String}
    (hs : mapSorted m) (h : (k, w) ∈ m) : lookupM m k = some w := by
  induction m with
  | nil => simp at h
  | cons kv t ih =>
    obtain ⟨k', v'⟩ := kv
    rw [mapSorted, List.pairwise_cons] at hs
    obtain ⟨hs1, hs2⟩ := hs
    rcases List.mem_cons.mp h with hm | hm
    · rw [Prod.mk.injEq] at hm
      obtain ⟨h1, h2⟩ := hm
      subst h1; subst h2
      simp [lookupM]
    · have hne : k ≠ k' := by
        intro he
        subst he
        exact strLt_ne (hs1 (k, w) hm) rfl
      rw [lookupM, if_neg hne]
      exact ih hs2 hm

/-! Facts about the store built by folding map assignments over records. -/

theorem storeFold_mem {l : List FileMetadata} {acc : List (String × String)}
    {x : String × String}
    (h : x ∈ l.foldl (fun a m => mapInsert a m.path (tsvLine m)) acc) :
    (∃ m ∈ l, x = (m.path, tsvLine m)) ∨ x ∈ acc := by
  induction l generalizing acc with
  | nil => exact Or.inr h
  | cons m t ih =>
    rw [List.foldl_cons] at h
    rcases ih h with h | h
    · obtain ⟨m', hm', hx⟩ := h
      exact Or.inl ⟨m', List.mem_cons_of_mem _ hm', hx⟩
    · rcases mem_mapInsert h with h | h
      · exact Or.inl ⟨m, List.mem_cons_self m t, h⟩
      · exact Or.inr h

theorem storeFold_lookup_of_absent {l : List FileMetadata} {acc : List (String × String)}
    {j : String} (h : ∀ m ∈ l, m.path ≠ j) :
    lookupM (l.foldl (fun a m => mapInsert a m.path (tsvLine m)) acc) j = lookupM acc j := by
  induction l generalizing acc with
  | nil => rfl
  | cons m t ih =>
    rw [List.foldl_cons, ih (fun m' hm' => h m' (List.mem_cons_of_mem _ hm')),
      lookupM_mapInsert]
    rw [if_neg (fun he => h m (List.mem_cons_self m t) he.symm)]

theorem storeFold_lookup_mem {l : List FileMetadata} {acc : List (String × String)}
    {m : FileMetadata} (hnd : (l.map (fun x => x.path)).Nodup) (hm : m ∈ l) :
    lookupM (l.foldl (fun a x => mapInsert a x.path (tsvLine x)) acc) m.path
      = some (tsvLine m) := by
  induction l generalizing acc with
  | nil => simp at hm
  | cons m0 t ih =>
    rw [List.map_cons, List.nodup_cons] at hnd
    obtain ⟨hnd1, hnd2⟩ := hnd
    rw [List.foldl_cons]
    rcases List.mem_cons.mp hm with h | h
    · subst h
      have habs : ∀ x ∈ t, x.path ≠ m.path := by
        intro x hx he
        exact hnd1 (he ▸ List.mem_map_of_mem (fun y => y.path) hx)
      rw [storeFold_lookup_of_absent habs, lookupM_mapInsert, if_pos rfl]
    · exact ih hnd2 h

theorem storeFold_lookup_inv {l : List FileMetadata} {acc : List (String × String)}
    {j w : String}
    (h : lookupM (l.foldl (fun a m => mapInsert a m.path (tsvLine m)) acc) j = some w) :
    (∃ m ∈ l, m.path = j ∧ w = tsvLine m) ∨ lookupM acc j = some w := by
  induction l generalizing acc with
  | nil => exact Or.inr h
  | cons m t ih =>
    rw [List.foldl_cons] at h
    rcases ih h with h | h
    · obtain ⟨m', hm', hj, hw⟩ := h
      exact Or.inl ⟨m', List.mem_cons_of_mem _ hm', hj, hw⟩
    · rw [lookupM_mapInsert] at h
      by_cases hj : j = m.path
      · rw [if_pos hj] at h
        injection h with h
        exact Or.inl ⟨m, List.mem_cons_self m t, hj.symm, h.symm⟩
      · rw [if_neg hj] at h
        exact Or.inr h

theorem storeOfMetas_sorted (l : List FileMetadata) : mapSorted (storeOfMetas l) := by
  have hgen : ∀ acc, mapSorted acc →
      mapSorted (l.foldl (fun a m => mapInsert a m.path (tsvLine m)) acc) := by
    induction l with
    | nil => intro acc hacc; exact hacc
    | cons m t ih =>
      intro acc hacc
      rw [List.foldl_cons]
      exact ih _ (mapInsert_sorted _ _ hacc)
  exact hgen [] (by simp [mapSorted])

/-! Facts about clean strings, the data line and its tab split. -/

theorem cleanStr_noTab {s : String} (h : cleanStr s = true) : '\t' ∉ s.data := by
  intro hm
  rw [cleanStr, List.all_eq_true] at h
  simpa using h _ hm

theorem cleanStr_noNl {s : String} (h : cleanStr s = true) : '\n' ∉ s.data := by
  intro hm
  rw [cleanStr, List.all_eq_true] at h
  simpa using h _ hm

theorem cleanMeta_fields {m : FileMetadata} (h : cleanMeta m = true) :
    cleanStr m.path = true ∧ cleanStr m.sizeStr = true ∧ cleanStr m.owner = true
      ∧ cleanStr m.group = true ∧ cleanStr m.perms = true ∧ cleanStr m.mtime = true
      ∧ cleanStr m.digest = true := by
  rw [cleanMeta] at h
  simp only [Bool.and_eq_true] at h
  tauto

theorem tsvLine_data (m : FileMetadata) :
    (tsvLine m).data = m.path.data ++ '\t' :: (m.sizeStr.data ++ '\t' :: (m.owner.data
      ++ '\t' :: (m.group.data ++ '\t' :: (m.perms.data ++ '\t' :: (m.mtime.data
      ++ '\t' :: m.digest.data))))) := by
  simp [tsvLine, dataAppend, List.append_assoc]

theorem noNl_tsvLine {m : FileMetadata} (h : cleanMeta m = true) :
    '\n' ∉ (tsvLine m).data := by
  obtain ⟨h1, h2, h3, h4, h5, h6, h7⟩ := cleanMeta_fields h
  rw [tsvLine_data]
  intro hm
  simp only [List.mem_append, List.mem_cons] at hm
  rcases hm with h | h
  · exact cleanStr_noNl h1 h
  · rcases h with h | h
    · exact absurd h (by decide)
    · rcases h with h | h
      · exact cleanStr_noNl h2 h
      · rcases h with h | h
        · exact absurd h (by decide)
        · rcases h with h | h
          · exact cleanStr_noNl h3 h
          · rcases h with h | h
            · exact absurd h (by decide)
            · rcases h with h | h
              · exact cleanStr_noNl h4 h
              · rcases h with h | h
                · exact absurd h (by decide)
                · rcases h with h | h
                  · exact cleanStr_noNl h5 h
                  · rcases h with h | h
                    · exact absurd h (by decide)
                    · rcases h with h | h
                      · exact cleanStr_noNl h6 h
                      · rcases h with h | h
                        · exact absurd h (by decide)
                        · exact cleanStr_noNl h7 h

theorem splitTabAux_push {a : List Char} (ha : '\t' ∉ a) :
    ∀ (temp rest : List Char),
      splitTabAux (a ++ '\t' :: rest) temp = String.mk (temp ++ a) :: splitTabAux rest [] := by
  induction a with
  | nil =>
    intro temp rest
    simp [splitTabAux]
  | cons c cs ih =>
    intro temp rest
    have hc : ¬ c = '\t' := fun he => ha (he ▸ List.mem_cons_self c cs)
    have hcs : '\t' ∉ cs := fun hm => ha (List.mem_cons_of_mem _ hm)
    simp only [List.cons_append, splitTabAux, if_neg hc]
    show splitTabAux (cs ++ '\t' :: rest) (temp ++ [c]) = _
    rw [ih hcs, List.append_assoc]
    rfl

theorem splitTabAux_last {a : List Char} (ha : '\t' ∉ a) :
    ∀ temp : List Char, splitTabAux a temp = [String.mk (temp ++ a)] := by
  induction a with
  | nil => intro temp; simp [splitTabAux]
  | cons c cs ih =>
    intro temp
    have hc : ¬ c = '\t' := fun he => ha (he ▸ List.mem_cons_self c cs)
    have hcs : '\t' ∉ cs := fun hm => ha (List.mem_cons_of_mem _ hm)
    simp only [splitTabAux, if_neg hc]
    show splitTabAux cs (temp ++ [c]) = _
    rw [ih hcs, List.append_assoc]
    rfl

theorem splitTab_tsvLine {m : FileMetadata} (h : cleanMeta m = true) :
    splitTab (tsvLine m)
      = [m.path, m.sizeStr, m.owner, m.group, m.perms, m.mtime, m.digest] := by
  obtain ⟨h1, h2, h3, h4, h5, h6, h7⟩ := cleanMeta_fields h
  rw [splitTab, tsvLine_data]
  rw [splitTabAux_push (cleanStr_noTab h1), splitTabAux_push (cleanStr_noTab h2),
    splitTabAux_push (cleanStr_noTab h3), splitTabAux_push (cleanStr_noTab h4),
    splitTabAux_push (cleanStr_noTab h5), splitTabAux_push (cleanStr_noTab h6),
    splitTabAux_last (cleanStr_noTab h7)]
  simp

theorem takeWhile_noTab {a : List Char} (ha : '\t' ∉ a) (rest : List Char) :
    (a ++ '\t' :: rest).takeWhile (fun c => c != '\t') = a := by
  induction a with
  | nil => simp [List.takeWhile]
  | cons c cs ih =>
    have hc : c ≠ '\t' := fun he => ha (he ▸ List.mem_cons_self c cs)
    have hcs : '\t' ∉ cs := fun hm => ha (List.mem_cons_of_mem _ hm)
    simp only [List.cons_append, List.takeWhile_cons]
    rw [if_pos (by simp [hc]), ih hcs]

theorem keyOf_tsvLine {m : FileMetadata} (h : cleanMeta m = true) :
    keyOf (tsvLine m) = m.path := by
  obtain ⟨h1, _⟩ := cleanMeta_fields h
  rw [keyOf, tsvLine_data, takeWhile_noTab (cleanStr_noTab h1)]

theorem tsvLine_ne_of_field_ne {m1 m2 : FileMetadata}
    (h1 : cleanMeta m1 = true) (h2 : cleanMeta m2 = true)
    (hne : ¬ (m1.path = m2.path ∧ m1.sizeStr = m2.sizeStr ∧ m1.owner = m2.owner
      ∧ m1.group = m2.group ∧ m1.perms = m2.perms ∧ m1.mtime = m2.mtime
      ∧ m1.digest = m2.digest)) :
    tsvLine m1 ≠ tsvLine m2 := by
  intro he
  have := congrArg splitTab he
  rw [splitTab_tsvLine h1, splitTab_tsvLine h2] at this
  simp only [List.cons.injEq] at this
  tauto

/-! Facts about line reading and full decoding of an encoded snapshot. -/

theorem getlineSpan_append {a : List Char} (ha : '\n' ∉ a) (r : List Char) :
    getlineSpan (a ++ '\n' :: r) = (a, some r) := by
  induction a with
  | nil => simp [getlineSpan]
  | cons c cs ih =>
    have hc : ¬ c = '\n' := fun he => ha (he ▸ List.mem_cons_self c cs)
    have hcs : '\n' ∉ cs := fun hm => ha (List.mem_cons_of_mem _ hm)
    simp [getlineSpan, if_neg hc, ih hcs]

theorem getlineM_rest {a : List Char} (ha : '\n' ∉ a) (r : List Char) (line : String) :
    getlineM ⟨a ++ '\n' :: r, true⟩ line = (⟨r, true⟩, ⟨a⟩, true) := by
  cases a with
  | nil =>
    show getlineM ⟨'\n' :: r, true⟩ line = _
    simp [getlineM, getlineSpan]
  | cons c cs =>
    have hc : ¬ c = '\n' := fun he => ha (he ▸ List.mem_cons_self c cs)
    have hcs : '\n' ∉ cs := fun hm => ha (List.mem_cons_of_mem _ hm)
    show getlineM ⟨c :: (cs ++ '\n' :: r), true⟩ line = _
    simp [getlineM, getlineSpan, if_neg hc, getlineSpan_append hcs]

theorem getlineM_line (l : String) (r : List Char) (line : String) (h : '\n' ∉ l.data) :
    getlineM ⟨l.data ++ '\n' :: r, true⟩ line = (⟨r, true⟩, l, true) :=
  getlineM_rest h r line

theorem readRowsAux_nil (n : Nat) (line : String) (acc : List (String × String)) :
    readRowsAux (n + 1) ⟨[], true⟩ line acc = acc := rfl

theorem readRowsAux_step {n : Nat} {st st' : VStream} {line l' : String}
    {acc : List (String × String)} (h : getlineM st line = (st', l', true)) :
    readRowsAux (n + 1) st line acc = readRowsAux n st' l' (mapInsert acc (keyOf l') l') := by
  rw [readRowsAux, h]

theorem encodeEntries_data (m : FileMetadata) (t : List FileMetadata) :
    (encodeEntries (m :: t)).data = (tsvLine m).data ++ '\n' :: (encodeEntries t).data := by
  show (tsvLine m ++ "\n" ++ encodeEntries t).data = _
  rw [dataAppend, dataAppend, List.append_assoc]
  rfl

theorem encodeEntries_length (ms : List FileMetadata) :
    ms.length ≤ (encodeEntries ms).data.length := by
  induction ms with
  | nil => simp
  | cons m t ih =>
    rw [encodeEntries_data]
    simp only [List.length_append, List.length_cons]
    omega

theorem readRowsAux_encode (ms : List FileMetadata) :
    ∀ (n : Nat) (line : String) (acc : List (String × String)),
      (∀ m ∈ ms, cleanMeta m = true) → ms.length + 1 ≤ n →
      readRowsAux n ⟨(encodeEntries ms).data, true⟩ line acc
        = ms.foldl (fun a m => mapInsert a m.path (tsvLine m)) acc := by
  induction ms with
  | nil =>
    intro n line acc _ hn
    obtain ⟨n', rfl⟩ : ∃ n', n = n' + 1 := ⟨n - 1, by omega⟩
    simp [encodeEntries, readRowsAux_nil]
  | cons m t ih =>
    intro n line acc hc hn
    obtain ⟨n', rfl⟩ : ∃ n', n = n' + 1 := ⟨n - 1, by omega⟩
    have hm : cleanMeta m = true := hc m (List.mem_cons_self m t)
    rw [encodeEntries_data]
    rw [readRowsAux_step (getlineM_line _ _ line (noNl_tsvLine hm))]
    rw [ih n' _ _ (fun x hx => hc x (List.mem_cons_of_mem _ hx)) (by simpa using hn)]
    rw [keyOf_tsvLine hm, List.foldl_cons]

theorem substrFrom_pre (pre s : String) :
    substrFrom (pre ++ s) pre.length = .ok s := by
  rw [substrFrom, if_pos]
  · congr 1
    apply strExt
    show ((pre ++ s).data.drop pre.data.length) = s.data
    rw [dataAppend, List.drop_left]
  · show pre.data.length ≤ (pre ++ s).data.length
    rw [dataAppend, List.length_append]
    omega

theorem vHeader_append_data (d h body : String) :
    (vHeader d h ++ body).data
      = titleLine.data ++ '\n' :: (("Directory: " ++ d).data
        ++ '\n' :: (("Hash Function: " ++ h).data
        ++ '\n' :: (colLine.data ++ '\n' :: body.data))) := by
  simp [vHeader, dataAppend, List.append_assoc]

theorem noNl_header_line {pre d : String} (hpre : '\n' ∉ pre.data)
    (hd : '\n' ∉ d.data) : '\n' ∉ (pre ++ d).data := by
  rw [dataAppend]
  intro hm
  rcases List.mem_append.mp hm with h | h
  · exact hpre h
  · exact hd h

theorem decodeHeader_encode (d h body : String)
    (hd : '\n' ∉ d.data) (hh : '\n' ∉ h.data) :
    decodeHeader (vHeader d h ++ body) = .ok (d, h, ⟨body.data, true⟩, colLine) := by
  have h1 : getlineM ⟨(vHeader d h ++ body).data, true⟩ ""
      = (⟨("Directory: " ++ d).data ++ '\n' :: (("Hash Function: " ++ h).data
          ++ '\n' :: (colLine.data ++ '\n' :: body.data)), true⟩, titleLine, true) := by
    rw [vHeader_append_data]
    exact getlineM_rest (by decide) _ _
  have h2 : getlineM ⟨("Directory: " ++ d).data ++ '\n' :: (("Hash Function: " ++ h).data
        ++ '\n' :: (colLine.data ++ '\n' :: body.data)), true⟩ titleLine
      = (⟨("Hash Function: " ++ h).data ++ '\n' :: (colLine.data ++ '\n' :: body.data),
          true⟩, "Directory: " ++ d, true) :=
    getlineM_line _ _ _ (noNl_header_line (by decide) hd)
  have h3 : getlineM ⟨("Hash Function: " ++ h).data
        ++ '\n' :: (colLine.data ++ '\n' :: body.data), true⟩ ("Directory: " ++ d)
      = (⟨colLine.data ++ '\n' :: body.data, true⟩, "Hash Function: " ++ h, true) :=
    getlineM_line _ _ _ (noNl_header_line (by decide) hh)
  have h4 : getlineM ⟨colLine.data ++ '\n' :: body.data, true⟩ ("Hash Function: " ++ h)
      = (⟨body.data, true⟩, colLine, true) :=
    getlineM_line _ _ _ (by decide)
  have s1 : substrFrom ("Directory: " ++ d) 11 = .ok d := by
    rw [show (11 : Nat) = ("Directory: " : String).length from rfl]
    exact substrFrom_pre _ _
  have s2 : substrFrom ("Hash Function: " ++ h) 15 = .ok h := by
    rw [show (15 : Nat) = ("Hash Function: " : String).length from rfl]
    exact substrFrom_pre _ _
  simp only [decodeHeader, h1, h2, h3, h4, s1, s2]

theorem decodeSnapshot_encode (s : Snapshot)
    (hd : '\n' ∉ s.dirPath.data) (hh : '\n' ∉ s.hashF.data)
    (hc : ∀ m ∈ s.entries, cleanMeta m = true) :
    decodeSnapshot (encodeSnapshot s) = .ok ⟨s.dirPath, s.hashF, storeOfMetas s.entries⟩ := by
  rw [decodeSnapshot, encodeSnapshot,
    decodeHeader_encode s.dirPath s.hashF (encodeEntries s.entries) hd hh]
  show Except.ok (⟨s.dirPath, s.hashF,
      readRows ⟨(encodeEntries s.entries).data, true⟩ colLine⟩ : DecodedV) = _
  rw [show readRows ⟨(encodeEntries s.entries).data, true⟩ colLine
      = readRowsAux ((encodeEntries s.entries).data.length + 1)
          ⟨(encodeEntries s.entries).data, true⟩ colLine [] from rfl]
  rw [readRowsAux_encode s.entries _ _ _ hc
    (by have := encodeEntries_length s.entries; omega)]
  rfl

/-! Membership characterisations of the three diff result lists. -/

theorem mem_changedFiles {v d : List (String × String)} {p : String} :
    p ∈ changedFiles v d
      ↔ ∃ vl, (p, vl) ∈ v ∧ ∃ dl, lookupM d p = some dl ∧ vl ≠ dl := by
  rw [changedFiles, List.mem_filterMap]
  constructor
  · rintro ⟨⟨k, vl⟩, hmem, hf⟩
    rcases hdl : lookupM d k with _ | dl
    · rw [hdl] at hf
      have hf' : (none : Option String) = some p := hf
      exact absurd hf' (by simp)
    · rw [hdl] at hf
      have hf' : (if vl = dl then none else some k) = some p := hf
      by_cases hne : vl = dl
      · rw [if_pos hne] at hf'
        exact absurd hf' (by simp)
      · rw [if_neg hne] at hf'
        injection hf' with hf'
        subst hf'
        exact ⟨vl, hmem, dl, hdl, hne⟩
  · rintro ⟨vl, hmem, dl, hdl, hne⟩
    refine ⟨(p, vl), hmem, ?_⟩
    show (match lookupM d p with
      | some dl => if vl = dl then none else some p
      | none => none) = some p
    rw [hdl]
    show (if vl = dl then none else some p) = some p
    rw [if_neg hne]

theorem mem_deletedFiles {v d : List (String × String)} {p : String} :
    p ∈ deletedFiles v d ↔ ∃ vl, (p, vl) ∈ v ∧ lookupM d p = none := by
  rw [deletedFiles, List.mem_filterMap]
  constructor
  · rintro ⟨⟨k, vl⟩, hmem, hf⟩
    rcases hdl : lookupM d k with _ | dl
    · rw [hdl] at hf
      have hf' : some k = some p := hf
      injection hf' with hf'
      subst hf'
      exact ⟨vl, hmem, hdl⟩
    · rw [hdl] at hf
      have hf' : (none : Option String) = some p := hf
      exact absurd hf' (by simp)
  · rintro ⟨vl, hmem, hdl⟩
    refine ⟨(p, vl), hmem, ?_⟩
    show (match lookupM d p with
      | some _ => none
      | none => some p) = some p
    rw [hdl]

theorem mem_newFiles {v d : List (String × String)} {p : String} :
    p ∈ newFiles v d ↔ ∃ dl, (p, dl) ∈ d ∧ lookupM v p = none := by
  rw [newFiles, List.mem_filterMap]
  constructor
  · rintro ⟨⟨k, dl⟩, hmem, hf⟩
    rcases hvl : lookupM v k with _ | vl
    · rw [hvl] at hf
      have hf' : some k = some p := hf
      injection hf' with hf'
      subst hf'
      exact ⟨dl, hmem, hvl⟩
    · rw [hvl] at hf
      have hf' : (none : Option String) = some p := hf
      exact absurd hf' (by simp)
  · rintro ⟨dl, hmem, hvl⟩
    refine ⟨(p, dl), hmem, ?_⟩
    show (match lookupM v p with
      | some _ => none
      | none => some p) = some p
    rw [hvl]

/-- Keys produced by a key-selecting filterMap over a sorted map stay in
strictly increasing order. -/
theorem pairwise_filterMap_keys {v : List (String × String)}
    {f : String × String → Option String}
    (hf : ∀ kv r, f kv = some r → r = kv.1) (hv : mapSorted v) :
    pathSorted (v.filterMap f) := by
  induction v with
  | nil => simp [pathSorted]
  | cons kv t ih =>
    rw [mapSorted, List.pairwise_cons] at hv
    obtain ⟨hv1, hv2⟩ := hv
    rw [List.filterMap_cons]
    rcases hr : f kv with _ | r
    · exact ih hv2
    · rw [pathSorted, List.pairwise_cons]
      refine ⟨?_, ih hv2⟩
      intro y hy
      obtain ⟨kv', hkv', hy'⟩ := List.mem_filterMap.mp hy
      rw [hf kv r hr, hf kv' y hy']
      exact hv1 kv' hkv'

theorem changedFiles_sorted {v d : List (String × String)} (hv : mapSorted v) :
    pathSorted (changedFiles v d) := by
  apply pairwise_filterMap_keys _ hv
  intro kv r hf
  rcases hdl : lookupM d kv.1 with _ | dl
  · rw [hdl] at hf
    have hf' : (none : Option String) = some r := hf
    exact absurd hf' (by simp)
  · rw [hdl] at hf
    have hf' : (if kv.2 = dl then none else some kv.1) = some r := hf
    by_cases hne : kv.2 = dl
    · rw [if_pos hne] at hf'
      exact absurd hf' (by simp)
    · rw [if_neg hne] at hf'
      injection hf' with hf'
      exact hf'.symm

theorem deletedFiles_sorted {v d : List (String × String)} (hv : mapSorted v) :
    pathSorted (deletedFiles v d) := by
  apply pairwise_filterMap_keys _ hv
  intro kv r hf
  rcases hdl : lookupM d kv.1 with _ | dl
  · rw [hdl] at hf
    have hf' : some kv.1 = some r := hf
    injection hf' with hf'
    exact hf'.symm
  · rw [hdl] at hf
    have hf' : (none : Option String) = some r := hf
    exact absurd hf' (by simp)

theorem newFiles_sorted {v d : List (String × String)} (hd : mapSorted d) :
    pathSorted (newFiles v d) := by
  apply pairwise_filterMap_keys _ hd
  intro kv r hf
  rcases hvl : lookupM v kv.1 with _ | vl
  · rw [hvl] at hf
    have hf' : some kv.1 = some r := hf
    injection hf' with hf'
    exact hf'.symm
  · rw [hvl] at hf
    have hf' : (none : Option String) = some r := hf
    exact absurd hf' (by simp)

/-- One optional warning followed by a tail stays a sublist when the
corresponding head element is put in front. -/
theorem sublist_if_cons (c : Prop) [Decidable c] (a : String) (r r' : List String)
    (h : r.Sublist r') : ((if c then [] else [a]) ++ r).Sublist (a :: r') := by
  by_cases hc : c
  · rw [if_pos hc]
    exact List.Sublist.cons a h
  · rw [if_neg hc]
    exact List.Sublist.cons₂ a h

/-- The discrepancy list always follows the fixed field order: it is a
sublist of the six messages in source order. -/
theorem fieldDiscrepancies_sublist (name vl dl : String) :
    (fieldDiscrepancies name vl dl).Sublist
      [name ++ " file size is different: " ++ (splitTab vl).getD 1 "" ++ " "
         ++ (splitTab dl).getD 1 "",
       name ++ " owner is different: " ++ (splitTab vl).getD 2 "" ++ " "
         ++ (splitTab dl).getD 2 "",
       name ++ " group is different: " ++ (splitTab vl).getD 3 "" ++ " "
         ++ (splitTab dl).getD 3 "",
       name ++ " access rights are different: " ++ (splitTab vl).getD 4 "" ++ " "
         ++ (splitTab dl).getD 4 "",
       name ++ " last modified time is different: " ++ (splitTab vl).getD 5 "" ++ " "
         ++ (splitTab dl).getD 5 "",
       name ++ " hash is different: " ++ (splitTab vl).getD 6 "" ++ " "
         ++ (splitTab dl).getD 6 ""] := by
  rw [fieldDiscrepancies]
  apply sublist_if_cons
  apply sublist_if_cons
  apply sublist_if_cons
  apply sublist_if_cons
  apply sublist_if_cons
  by_cases hc : (splitTab vl).getD 6 "" = (splitTab dl).getD 6 ""
  · rw [if_pos hc]
    exact List.nil_sublist _
  · rw [if_neg hc]

/-! Facts about the two collection walks. -/

theorem captureMeta_error {env : Env} {e : Entry} {hashF : String} {err : SivError}
    (h : captureMeta env e hashF = .error err) : err = .unsupportedAlgorithm := by
  rw [captureMeta] at h
  by_cases hdir : e.isDir
  · rw [if_pos hdir] at h
    exact absurd h (by simp)
  · rw [if_neg hdir] at h
    rw [hashFileM] at h
    by_cases h5 : hashF = "md5"
    · rw [if_pos h5] at h
      exact absurd h (by simp)
    · rw [if_neg h5] at h
      by_cases h1 : hashF = "sha1"
      · rw [if_pos h1] at h
        exact absurd h (by simp)
      · rw [if_neg h1] at h
        injection h with h
        exact h.symm

theorem collectInitAux_cons_err {env : Env} {hashF : String} {e : Entry} {t : List Entry}
    {acc : String} {f d : Nat} {evs : List Event} {err : SivError}
    (hc : createTsvString env e hashF = (evs, .error err)) :
    collectInitAux env hashF (e :: t) acc f d = (evs, .error err) := by
  rw [collectInitAux, hc]

theorem collectInitAux_cons_ok {env : Env} {hashF : String} {e : Entry} {t : List Entry}
    {acc : String} {f d : Nat} {evs : List Event} {line : String}
    (hc : createTsvString env e hashF = (evs, .ok line)) :
    collectInitAux env hashF (e :: t) acc f d
      = (evs ++ (collectInitAux env hashF t (acc ++ line)
            (if e.isDir then f else f + 1) (if e.isDir then d + 1 else d)).1,
         (collectInitAux env hashF t (acc ++ line)
            (if e.isDir then f else f + 1) (if e.isDir then d + 1 else d)).2) := by
  have h0 : collectInitAux env hashF (e :: t) acc f d
      = match collectInitAux env hashF t (acc ++ line)
            (if e.isDir then f else f + 1) (if e.isDir then d + 1 else d) with
        | (evs', r) => (evs ++ evs', r) := by
    rw [collectInitAux, hc]
  rw [h0]

theorem collectVerifyAux_cons_err {env : Env} {hashF : String} {e : Entry} {t : List Entry}
    {acc : List (String × String)} {f d : Nat} {evs : List Event} {err : SivError}
    (hc : createTsvString env e hashF = (evs, .error err)) :
    collectVerifyAux env hashF (e :: t) acc f d = (evs, .error err) := by
  rw [collectVerifyAux, hc]

theorem collectVerifyAux_cons_ok {env : Env} {hashF : String} {e : Entry} {t : List Entry}
    {acc : List (String × String)} {f d : Nat} {evs : List Event} {line : String}
    (hc : createTsvString env e hashF = (evs, .ok line)) :
    collectVerifyAux env hashF (e :: t) acc f d
      = (evs ++ (collectVerifyAux env hashF t (mapInsert acc e.path (stripNl line))
            (if e.isDir then f else f + 1) (if e.isDir then d + 1 else d)).1,
         (collectVerifyAux env hashF t (mapInsert acc e.path (stripNl line))
            (if e.isDir then f else f + 1) (if e.isDir then d + 1 else d)).2) := by
  have h0 : collectVerifyAux env hashF (e :: t) acc f d
      = match collectVerifyAux env hashF t (mapInsert acc e.path (stripNl line))
            (if e.isDir then f else f + 1) (if e.isDir then d + 1 else d) with
        | (evs', r) => (evs ++ evs', r) := by
    rw [collectVerifyAux, hc]
  rw [h0]

theorem collectInitAux_error {env : Env} {hashF : String} :
    ∀ {l : List Entry} {acc : String} {f d : Nat} {err : SivError},
      (collectInitAux env hashF l acc f d).2 = .error err → err = .unsupportedAlgorithm := by
  intro l
  induction l with
  | nil =>
    intro acc f d err h
    have h' : (Except.ok (acc, f, d) : Except SivError (String × Nat × Nat))
        = .error err := h
    exact absurd h' (by simp)
  | cons e t ih =>
    intro acc f d err h
    rcases hmeta : captureMeta env e hashF with merr | m
    · have hc : createTsvString env e hashF = ([Event.statEntry e.path], .error merr) := by
        rw [createTsvString, hmeta]
      rw [collectInitAux_cons_err hc] at h
      have h' : (Except.error merr : Except SivError (String × Nat × Nat)) = .error err := h
      injection h' with h'
      exact h' ▸ captureMeta_error hmeta
    · have hc : createTsvString env e hashF
          = (if e.isDir then [Event.statEntry e.path]
             else [Event.statEntry e.path, Event.hashEntry e.path],
             .ok (tsvLine m ++ "\n")) := by
        rw [createTsvString, hmeta]
      rw [collectInitAux_cons_ok hc] at h
      exact ih h

theorem collectVerifyAux_error {env : Env} {hashF : String} :
    ∀ {l : List Entry} {acc : List (String × String)} {f d : Nat} {err : SivError},
      (collectVerifyAux env hashF l acc f d).2 = .error err
        → err = .unsupportedAlgorithm := by
  intro l
  induction l with
  | nil =>
    intro acc f d err h
    have h' : (Except.ok (acc, f, d)
        : Except SivError (List (String × String) × Nat × Nat)) = .error err := h
    exact absurd h' (by simp)
  | cons e t ih =>
    intro acc f d err h
    rcases hmeta : captureMeta env e hashF with merr | m
    · have hc : createTsvString env e hashF = ([Event.statEntry e.path], .error merr) := by
        rw [createTsvString, hmeta]
      rw [collectVerifyAux_cons_err hc] at h
      have h' : (Except.error merr
          : Except SivError (List (String × String) × Nat × Nat)) = .error err := h
      injection h' with h'
      exact h' ▸ captureMeta_error hmeta
    · have hc : createTsvString env e hashF
          = (if e.isDir then [Event.statEntry e.path]
             else [Event.statEntry e.path, Event.hashEntry e.path],
             .ok (tsvLine m ++ "\n")) := by
        rw [createTsvString, hmeta]
      rw [collectVerifyAux_cons_ok hc] at h
      exact ih h

/-! Facts about the substring search used in the path checks. -/

theorem substrAt_self_append : ∀ (a b : List Char), substrAt a (a ++ b) = true := by
  intro a
  induction a with
  | nil => intro b; rfl
  | cons c cs ih => intro b; simp [substrAt, ih]

theorem substrAt_weaken : ∀ (y : List Char) {x hay : List Char},
    substrAt (x ++ y) hay = true → substrAt x hay = true := by
  intro y x
  induction x with
  | nil => intro hay _; rfl
  | cons c cs ih =>
    intro hay h
    cases hay with
    | nil => exact absurd h (by simp [substrAt])
    | cons b hb =>
      rw [List.cons_append, substrAt, Bool.and_eq_true] at h
      rw [substrAt, Bool.and_eq_true]
      exact ⟨h.1, ih h.2⟩

theorem findSub_of_substrAt {needle hay : List Char} (h : substrAt needle hay = true) :
    findSub needle hay = true := by
  cases hay with
  | nil => exact h
  | cons c t => simp [findSub, h]

theorem strContains_of_isInside {c p : String} (h : isInsideDir c p = true) :
    strContains c p = true := by
  rw [isInsideDir] at h
  rw [strContains]
  apply findSub_of_substrAt
  apply substrAt_weaken ['/']
  rw [show p.data ++ ['/'] = (p ++ "/").data from rfl]
  exact h

/-! Facts about header decoding failure modes. -/

theorem substrFrom_error {s : String} {pos : Nat} {e : SivError}
    (h : substrFrom s pos = .error e) : e = .crashOutOfRange := by
  rw [substrFrom] at h
  by_cases hp : pos ≤ s.length
  · rw [if_pos hp] at h
    exact absurd h (by simp)
  · rw [if_neg hp] at h
    injection h with h
    exact h.symm

theorem decodeHeader_view (text : String) :
    decodeHeader text
      = match substrFrom (hdr2 text).2.1 11 with
        | .error e => .error e
        | .ok dirPath =>
          match substrFrom (hdr3 text).2.1 15 with
          | .error e => .error e
          | .ok hashF => .ok (dirPath, hashF, (hdr4 text).1, (hdr4 text).2.1) := rfl

theorem decodeHeader_error_crash {text : String} {e : SivError}
    (h : decodeHeader text = .error e) : e = .crashOutOfRange := by
  rw [decodeHeader_view] at h
  rcases h2 : substrFrom (hdr2 text).2.1 11 with e2 | dp
  · rw [h2] at h
    have h' : (Except.error e2 : Except SivError (String × String × VStream × String))
        = .error e := h
    injection h' with h'
    exact h' ▸ substrFrom_error h2
  · rw [h2] at h
    rcases h3 : substrFrom (hdr3 text).2.1 15 with e3 | hf
    · rw [h3] at h
      have h' : (Except.error e3 : Except SivError (String × String × VStream × String))
          = .error e := h
      injection h' with h'
      exact h' ▸ substrFrom_error h3
    · rw [h3] at h
      have h' : (Except.ok (dp, hf, (hdr4 text).1, (hdr4 text).2.1)
          : Except SivError (String × String × VStream × String)) = .error e := h
      exact absurd h' (by simp)

/-! Shapes of the two run functions once their checks are decided. -/

theorem initializeRun_pathConflict {env : Env} {dirPath vFilePath rFilePath hashF : String}
    (hdir : env.dirExists = true)
    (h : strContains vFilePath dirPath = true ∨ strContains rFilePath dirPath = true
        ∨ vFilePath = rFilePath) :
    initializeRun env dirPath vFilePath rFilePath hashF = ([], .error .pathConflict) := by
  rw [initializeRun, if_neg (by simp [hdir])]
  cases hv : strContains vFilePath dirPath
  · rw [if_neg (by simp [hv])]
    cases hr : strContains rFilePath dirPath
    · have heq : vFilePath = rFilePath := by
        rcases h with h | h | h
        · rw [h] at hv; exact absurd hv (by simp)
        · rw [h] at hr; exact absurd hr (by simp)
        · exact h
      rw [if_neg (by simp [hr]), if_pos heq]
    · simp
  · simp

theorem initializeRun_badExt {env : Env} {dirPath vFilePath rFilePath hashF : String}
    (hdir : env.dirExists = true)
    (hv : strContains vFilePath dirPath = false)
    (hr : strContains rFilePath dirPath = false)
    (hne : vFilePath ≠ rFilePath)
    (hx : strContains rFilePath ".txt" = false) :
    initializeRun env dirPath vFilePath rFilePath hashF = ([], .error .badReportExt) := by
  rw [initializeRun, if_neg (by simp [hdir]), if_neg (by simp [hv]),
    if_neg (by simp [hr]), if_neg hne, if_pos hx]

theorem initializeRun_not_badExt {env : Env} {dirPath vFilePath rFilePath hashF : String}
    (hdir : env.dirExists = true)
    (hv : strContains vFilePath dirPath = false)
    (hr : strContains rFilePath dirPath = false)
    (hne : vFilePath ≠ rFilePath)
    (hx : strContains rFilePath ".txt" = true)
    (hbad : (initializeRun env dirPath vFilePath rFilePath hashF).2
        = .error .badReportExt) : False := by
  rw [initializeRun, if_neg (by simp [hdir]), if_neg (by simp [hv]),
    if_neg (by simp [hr]), if_neg hne, if_neg (by simp [hx])] at hbad
  rcases hcol : collectInitAux env hashF env.entries (vHeader dirPath hashF) 0 0
    with ⟨evs, rr⟩
  rw [hcol] at hbad
  rcases rr with err | out
  · have h' : (Except.error err : Except SivError InitOut) = .error .badReportExt := hbad
    injection h' with h'
    have hu : err = .unsupportedAlgorithm := collectInitAux_error (by rw [hcol])
    rw [hu] at h'
    exact absurd h' (by simp)
  · have h' : (Except.ok (⟨out.1, out.2.1, out.2.2⟩ : InitOut)
        : Except SivError InitOut) = .error .badReportExt := hbad
    exact absurd h' (by simp)

theorem verifyRun_pathConflict {env : Env} {text vpath rpath dirPath hashF : String}
    {s4 : VStream} {l4 : String}
    (hdec : decodeHeader text = .ok (dirPath, hashF, s4, l4))
    (h : strContains vpath dirPath = true ∨ strContains rpath dirPath = true
        ∨ vpath = rpath) :
    verifyRun env (some text) vpath rpath
      = ([Event.readVFile vpath], .error .pathConflict) := by
  simp only [verifyRun, hdec]
  cases hv : strContains vpath dirPath
  · rw [if_neg (by simp [hv])]
    cases hr : strContains rpath dirPath
    · have heq : vpath = rpath := by
        rcases h with h | h | h
        · rw [h] at hv; exact absurd hv (by simp)
        · rw [h] at hr; exact absurd hr (by simp)
        · exact h
      rw [if_neg (by simp [hr]), if_pos heq]
    · simp
  · simp

theorem verifyRun_collect_error {env : Env} {text vpath rpath dirPath hashF : String}
    {s4 : VStream} {l4 : String} {evs : List Event} {err : SivError}
    (hdec : decodeHeader text = .ok (dirPath, hashF, s4, l4))
    (c1 : strContains vpath dirPath = false) (c2 : strContains rpath dirPath = false)
    (c3 : vpath ≠ rpath) (c4 : strContains rpath ".txt" = true)
    (hcol : collectVerifyAux env hashF env.entries [] 0 0 = (evs, .error err)) :
    verifyRun env (some text) vpath rpath = (Event.readVFile vpath :: evs, .error err) := by
  simp only [verifyRun, hdec]
  rw [if_neg (by simp [c1]), if_neg (by simp [c2]), if_neg c3, if_neg (by simp [c4]), hcol]

theorem verifyRun_not_badExt {env : Env} {text vpath rpath dirPath hashF : String}
    {s4 : VStream} {l4 : String}
    (hdec : decodeHeader text = .ok (dirPath, hashF, s4, l4))
    (c1 : strContains vpath dirPath = false) (c2 : strContains rpath dirPath = false)
    (c3 : vpath ≠ rpath) (c4 : strContains rpath ".txt" = true)
    (hbad : (verifyRun env (some text) vpath rpath).2 = .error .badReportExt) : False := by
  rcases hcol : collectVerifyAux env hashF env.entries [] 0 0 with ⟨evs, rr⟩
  rcases rr with err | out
  · rw [verifyRun_collect_error hdec c1 c2 c3 c4 hcol] at hbad
    have h' : (Except.error err : Except SivError VerifyOut) = .error .badReportExt := hbad
    injection h' with h'
    have hu : err = .unsupportedAlgorithm := collectVerifyAux_error (by rw [hcol])
    rw [hu] at h'
    exact absurd h' (by simp)
  · simp only [verifyRun, hdec] at hbad
    rw [if_neg (by simp [c1]), if_neg (by simp [c2]), if_neg c3,
      if_neg (by simp [c4]), hcol] at hbad
    have h' : (Except.ok (⟨reportText dirPath vpath hashF out.2.1 out.2.2
        (deletedFiles (readRows s4 l4) out.1).length
        (newFiles (readRows s4 l4) out.1).length
        (changedFiles (readRows s4 l4) out.1).length
        (warningsList (readRows s4 l4) out.1)⟩ : VerifyOut)
        : Except SivError VerifyOut) = .error .badReportExt := hbad
    exact absurd h' (by simp)

theorem verifyRun_badExt {env : Env} {text vpath rpath dirPath hashF : String}
    {s4 : VStream} {l4 : String}
    (hdec : decodeHeader text = .ok (dirPath, hashF, s4, l4))
    (c1 : strContains vpath dirPath = false) (c2 : strContains rpath dirPath = false)
    (c3 : vpath ≠ rpath) (hx : strContains rpath ".txt" = false) :
    verifyRun env (some text) vpath rpath
      = ([Event.readVFile vpath], .error .badReportExt) := by
  simp only [verifyRun, hdec]
  rw [if_neg (by simp [c1]), if_neg (by simp [c2]), if_neg c3, if_pos hx]

/-- With an unregistered algorithm name, the verification walk stats every
leading directory entry and the first regular file, then aborts. -/
theorem collectVerifyAux_unsupported {env : Env} {hashF : String}
    (h5 : hashF ≠ "md5") (h1 : hashF ≠ "sha1") :
    ∀ (pre : List Entry) (e0 : Entry) (rest : List Entry)
      (acc : List (String × String)) (f d : Nat),
      (∀ x ∈ pre, x.isDir = true) → e0.isDir = false →
      collectVerifyAux env hashF (pre ++ e0 :: rest) acc f d
        = (pre.map (fun x => Event.statEntry x.path) ++ [Event.statEntry e0.path],
           .error .unsupportedAlgorithm) := by
  intro pre
  induction pre with
  | nil =>
    intro e0 rest acc f d _ he0
    have hcap : captureMeta env e0 hashF = .error .unsupportedAlgorithm := by
      rw [captureMeta, if_neg (by simp [he0]), hashFileM, if_neg h5, if_neg h1]
    have hc : createTsvString env e0 hashF
        = ([Event.statEntry e0.path], .error .unsupportedAlgorithm) := by
      rw [createTsvString, hcap]
    rw [List.nil_append, collectVerifyAux_cons_err hc]
    simp
  | cons p pres ih =>
    intro e0 rest acc f d hpre he0
    have hp : p.isDir = true := hpre p (List.mem_cons_self p pres)
    have hcap : captureMeta env p hashF
        = .ok ⟨p.path, toString p.st.size, env.userName p.st.uid, env.userName p.st.uid,
               octStr (p.st.mode % 512), p.st.mtime, "directory"⟩ := by
      rw [captureMeta, if_pos hp]
    have hc : createTsvString env p hashF
        = ([Event.statEntry p.path],
           .ok (tsvLine ⟨p.path, toString p.st.size, env.userName p.st.uid,
                env.userName p.st.uid, octStr (p.st.mode % 512), p.st.mtime,
                "directory"⟩ ++ "\n")) := by
      rw [createTsvString, hcap, if_pos hp]
    rw [List.cons_append, collectVerifyAux_cons_ok hc]
    rw [ih e0 rest _ _ _ (fun x hx => hpre x (List.mem_cons_of_mem _ hx)) he0]
    simp

/-! The field comparison restated over record fields. -/

theorem fieldDiscrepancies_fields (name : String) {m1 m2 : FileMetadata}
    (hc1 : cleanMeta m1 = true) (hc2 : cleanMeta m2 = true) :
    fieldDiscrepancies name (tsvLine m1) (tsvLine m2)
      = (if m1.sizeStr = m2.sizeStr then []
         else [name ++ " file size is different: " ++ m1.sizeStr ++ " " ++ m2.sizeStr]) ++
        ((if m1.owner = m2.owner then []
          else [name ++ " owner is different: " ++ m1.owner ++ " " ++ m2.owner]) ++
        ((if m1.group = m2.group then []
          else [name ++ " group is different: " ++ m1.group ++ " " ++ m2.group]) ++
        ((if m1.perms = m2.perms then []
          else [name ++ " access rights are different: " ++ m1.perms ++ " " ++ m2.perms]) ++
        ((if m1.mtime = m2.mtime then []
          else [name ++ " last modified time is different: " ++ m1.mtime ++ " " ++ m2.mtime]) ++
        (if m1.digest = m2.digest then []
         else [name ++ " hash is different: " ++ m1.digest ++ " " ++ m2.digest]))))) := by
  rw [fieldDiscrepancies, splitTab_tsvLine hc1, splitTab_tsvLine hc2]
  simp only [List.getD_cons_succ, List.getD_cons_zero]

theorem if_nil_imp {c : Prop} [Decidable c] {a : String}
    (h : (if c then [] else [a]) = ([] : List String)) : c := by
  by_cases hc : c
  · exact hc
  · rw [if_neg hc] at h
    exact absurd h (by simp)

theorem fieldDiscrepancies_ne_nil {name : String} {m1 m2 : FileMetadata}
    (hc1 : cleanMeta m1 = true) (hc2 : cleanMeta m2 = true)
    (hp : m1.path = m2.path) (hne : tsvLine m1 ≠ tsvLine m2) :
    fieldDiscrepancies name (tsvLine m1) (tsvLine m2) ≠ [] := by
  intro hnil
  rw [fieldDiscrepancies_fields name hc1 hc2] at hnil
  simp only [List.append_eq_nil] at hnil
  obtain ⟨n1, n2, n3, n4, n5, n6⟩ := hnil
  apply hne
  rw [tsvLine, tsvLine, hp, if_nil_imp n1, if_nil_imp n2, if_nil_imp n3,
    if_nil_imp n4, if_nil_imp n5, if_nil_imp n6]

/-! Settled claims. -/

/-- C1: the claim states that the group field of a captured snapshot record
is the resolved group name of the entry (and the owner field the resolved
owner name).  The code instead writes pw.pw_name, the owner name, into the
group column (siv.cpp line 149) and discards the getgrgid result.  At this
input the owner resolves to alice and the group to staff, yet the captured
record carries alice in both the owner and the group fields. -/
theorem C1_group_column_gets_owner_name :
    (captureMeta envC1 entryC1 "md5").map (fun m => (m.owner, m.group))
      = .ok ("alice", "alice")
    ∧ envC1.groupName entryC1.st.gid = "staff"
    ∧ ("alice" : String) ≠ "staff" :=
  ⟨rfl, rfl, by decide⟩

/-- C2 counterexample: on input text with no header at all, decoding does
not fail with MalformedSnapshotError; it crashes with the out-of-range
error that std::string::substr throws on the too-short header line. -/
theorem C2_counterexample :
    decodeSnapshot "" = .error .crashOutOfRange
    ∧ SivError.crashOutOfRange ≠ SivError.malformedSnapshot :=
  ⟨rfl, by decide⟩

/-- C2 amended: decoding never produces MalformedSnapshotError.  Every
decode either crashes with the out-of-range substring error (header line 2
shorter than 11 characters or line 3 shorter than 15) or returns a snapshot;
in particular a data line with two fields instead of seven is accepted into
the table without any arity validation. -/
theorem C2_decode_never_malformed :
    (∀ text, decodeSnapshot text = .error .crashOutOfRange
        ∨ ∃ dec, decodeSnapshot text = .ok dec)
    ∧ decodeSnapshot badArityText
        = .ok ⟨"/data", "md5", [("/data/a", "/data/a\tjunk")]⟩ := by
  constructor
  · intro text
    rw [decodeSnapshot]
    rcases hh : decodeHeader text with e | q
    · left
      rw [decodeHeader_error_crash hh]
    · right
      obtain ⟨dp, hf, s4, l4⟩ := q
      exact ⟨_, rfl⟩
  · rfl

/-- C3: decoding the text encoded from a snapshot reproduces the snapshot
exactly: the directory and hash-algorithm header fields come back verbatim,
every record is found under its path with its full data line, the table
holds nothing else, and the data line splits back into exactly the seven
original field strings, digest, timestamp and permission text included.
This holds for every snapshot whose fields are free of tab and newline
characters and whose paths are unique, the snapshot well-formedness the
format presumes. -/
theorem C3_roundTrip (s : Snapshot)
    (hd : cleanStr s.dirPath = true) (hh : cleanStr s.hashF = true)
    (hc : ∀ m ∈ s.entries, cleanMeta m = true)
    (hnd : (s.entries.map (fun m => m.path)).Nodup) :
    ∃ dec, decodeSnapshot (encodeSnapshot s) = .ok dec
      ∧ dec.dirPath = s.dirPath ∧ dec.hashF = s.hashF
      ∧ (∀ m ∈ s.entries, lookupM dec.table m.path = some (tsvLine m))
      ∧ (∀ k l, lookupM dec.table k = some l
          → ∃ m ∈ s.entries, m.path = k ∧ l = tsvLine m)
      ∧ (∀ m ∈ s.entries, splitTab (tsvLine m)
          = [m.path, m.sizeStr, m.owner, m.group, m.perms, m.mtime, m.digest]) := by
  refine ⟨⟨s.dirPath, s.hashF, storeOfMetas s.entries⟩,
    decodeSnapshot_encode s (cleanStr_noNl hd) (cleanStr_noNl hh) hc, rfl, rfl, ?_, ?_, ?_⟩
  · intro m hm
    exact storeFold_lookup_mem hnd hm
  · intro k l hl
    rcases storeFold_lookup_inv (show lookupM
        (s.entries.foldl (fun a m => mapInsert a m.path (tsvLine m)) []) k = some l
        from hl) with h | h
    · obtain ⟨m, hm, hk, hw⟩ := h
      exact ⟨m, hm, hk, hw⟩
    · exact absurd h (by simp [lookupM])
  · intro m hm
    exact splitTab_tsvLine (hc m hm)

/-- C3 witness: the round trip evaluated on a concrete two-entry snapshot. -/
theorem C3_roundTrip_witness :
    ∃ dec, decodeSnapshot (encodeSnapshot snapC3) = .ok dec
      ∧ dec.dirPath = snapC3.dirPath ∧ dec.hashF = snapC3.hashF
      ∧ (∀ m ∈ snapC3.entries, lookupM dec.table m.path = some (tsvLine m))
      ∧ (∀ k l, lookupM dec.table k = some l
          → ∃ m ∈ snapC3.entries, m.path = k ∧ l = tsvLine m)
      ∧ (∀ m ∈ snapC3.entries, splitTab (tsvLine m)
          = [m.path, m.sizeStr, m.owner, m.group, m.perms, m.mtime, m.digest]) :=
  C3_roundTrip snapC3 (by decide) (by decide) (by decide) (by decide)

/-- C4 counterexample: a verification run whose stored hash-algorithm name
is sha256, over a directory holding one regular file, does fail with the
unsupported-algorithm error, but only after traversal has begun: the file
has already been stat'd when the failure occurs, contradicting the claim
that no entry is stat'd or hashed first. -/
theorem C4_counterexample :
    (verifyRun envC4 (some vtextC4) "/snap.tsv" "/r.txt").2
        = .error .unsupportedAlgorithm
    ∧ Event.statEntry "/data/a.txt"
        ∈ (verifyRun envC4 (some vtextC4) "/snap.tsv" "/r.txt").1 :=
  ⟨rfl, by decide⟩

/-- C4 amended: in initialization mode the unregistered algorithm name is
rejected by the argument checks of main before any traversal (empty event
trace); in verification mode the name comes from the snapshot header and is
detected only when the first regular file is hashed, after the verification
file has been read and every entry up to and including that file has been
stat'd. -/
theorem C4_amended :
    (∀ (env : Env) (dirPath vFilePath rFilePath hashF : String),
      dirPath ≠ "" → vFilePath ≠ "" → rFilePath ≠ "" → hashF ≠ "" →
      hashF ≠ "md5" → hashF ≠ "sha1" →
      mainInitRun env dirPath vFilePath rFilePath hashF
        = ([], .error .unsupportedAlgorithm))
    ∧ (∀ (env : Env) (text vpath rpath dirPath hashF : String) (s4 : VStream)
        (l4 : String) (pre : List Entry) (e0 : Entry) (rest : List Entry),
      decodeHeader text = .ok (dirPath, hashF, s4, l4) →
      hashF ≠ "md5" → hashF ≠ "sha1" →
      strContains vpath dirPath = false → strContains rpath dirPath = false →
      vpath ≠ rpath → strContains rpath ".txt" = true →
      env.entries = pre ++ e0 :: rest →
      (∀ x ∈ pre, x.isDir = true) → e0.isDir = false →
      verifyRun env (some text) vpath rpath
        = (Event.readVFile vpath
            :: (pre.map (fun x => Event.statEntry x.path) ++ [Event.statEntry e0.path]),
           .error .unsupportedAlgorithm)) := by
  constructor
  · intro env dirPath vFilePath rFilePath hashF h1 h2 h3 h4 h5 h6
    rw [mainInitRun, if_neg h1, if_neg h2, if_neg h3, if_neg h4, if_pos ⟨h5, h6⟩]
  · intro env text vpath rpath dirPath hashF s4 l4 pre e0 rest hdec h5 h1 c1 c2 c3 c4
      hent hpre he0
    apply verifyRun_collect_error hdec c1 c2 c3 c4
    rw [hent]
    exact collectVerifyAux_unsupported h5 h1 pre e0 rest [] 0 0 hpre he0

/-- C4 witness: both halves applied to concrete runs. -/
theorem C4_amended_witness :
    mainInitRun envC1 "/data" "/v.tsv" "/r.txt" "sha256"
      = ([], .error .unsupportedAlgorithm)
    ∧ verifyRun envC4 (some vtextC4) "/snap.tsv" "/r.txt"
      = ([Event.readVFile "/snap.tsv", Event.statEntry "/data/a.txt"],
         .error .unsupportedAlgorithm) := by
  constructor
  · exact C4_amended.1 envC1 "/data" "/v.tsv" "/r.txt" "sha256"
      (by decide) (by decide) (by decide) (by decide) (by decide) (by decide)
  · have h := C4_amended.2 envC4 vtextC4 "/snap.tsv" "/r.txt" "/data" "sha256"
      ⟨[], true⟩ colLine []
      ⟨"/data/a.txt", false, ⟨12, 1000, 1000, 420, "2022-01-01 00:00:00"⟩, "hello"⟩ []
      rfl (by decide) (by decide) (by decide) (by decide) (by decide) (by decide)
      rfl (by simp) rfl
    simpa using h

/-- C5 counterexample: a run whose report path has no .txt occurrence is
rejected by the core with the extension error, so the claim that the core
never fails on account of the report path form is false. -/
theorem C5_counterexample :
    initializeRun envC1 "/data" "/v.tsv" "/report.log" "md5"
      = ([], .error .badReportExt) := rfl

/-- C5 amended: once the earlier checks pass, both initialization and
verification fail with the extension error exactly when the report path
does not contain .txt as a substring; a .txt occurrence anywhere in the
path is accepted, it need not be a suffix. -/
theorem C5_amended :
    (∀ (env : Env) (dirPath v r hashF : String),
      env.dirExists = true → strContains v dirPath = false →
      strContains r dirPath = false → v ≠ r →
      ((initializeRun env dirPath v r hashF).2 = .error .badReportExt
        ↔ strContains r ".txt" = false))
    ∧ (∀ (env : Env) (text v r dirPath hashF : String) (s4 : VStream) (l4 : String),
      decodeHeader text = .ok (dirPath, hashF, s4, l4) →
      strContains v dirPath = false → strContains r dirPath = false → v ≠ r →
      ((verifyRun env (some text) v r).2 = .error .badReportExt
        ↔ strContains r ".txt" = false)) := by
  constructor
  · intro env dirPath v r hashF hdir hv hr hne
    constructor
    · intro hbad
      cases hx : strContains r ".txt"
      · rfl
      · exact (initializeRun_not_badExt hdir hv hr hne hx hbad).elim
    · intro hx
      rw [initializeRun_badExt hdir hv hr hne hx]
  · intro env text v r dirPath hashF s4 l4 hdec hv hr hne
    constructor
    · intro hbad
      cases hx : strContains r ".txt"
      · rfl
      · exact (verifyRun_not_badExt hdec hv hr hne hx hbad).elim
    · intro hx
      rw [verifyRun_badExt hdec hv hr hne hx]

/-- C5 witness: the amended equivalence on a concrete initialization and a
concrete verification, both with a report path lacking .txt. -/
theorem C5_amended_witness :
    ((initializeRun envC1 "/data" "/v.tsv" "/report.log" "md5").2
        = .error .badReportExt ↔ strContains "/report.log" ".txt" = false)
    ∧ ((verifyRun envC1 (some vtextC6) "/v.tsv" "/report.log").2
        = .error .badReportExt ↔ strContains "/report.log" ".txt" = false) := by
  constructor
  · exact C5_amended.1 envC1 "/data" "/v.tsv" "/report.log" "md5"
      rfl (by decide) (by decide) (by decide)
  · exact C5_amended.2 envC1 vtextC6 "/v.tsv" "/report.log" "/data" "md5"
      ⟨[], true⟩ colLine rfl (by decide) (by decide) (by decide)

/-- C6 counterexample: in a verification run whose verification-file path
lies inside the monitored directory, the run does fail with the path
conflict, but the verification file has already been opened and read first:
the event trace contains the read, so the failure does not precede all
snapshot I/O as the claim states. -/
theorem C6_counterexample :
    isInsideDir "/data/snap.tsv" "/data" = true
    ∧ verifyRun envC1 (some vtextC6) "/data/snap.tsv" "/r.txt"
        = ([Event.readVFile "/data/snap.tsv"], .error .pathConflict) :=
  ⟨by decide, rfl⟩

/-- C6 amended: a snapshot or report path inside the monitored directory,
or equal snapshot and report paths, abort initialization with the path
conflict before any file is created (empty I/O trace), which covers the
scenario of directory /data and snapshot path /data/snap.tsv; in
verification the same conflicts abort the run with the path conflict
before any traversal or report I/O, but necessarily after the verification
file has been opened and read, since the monitored-directory path is
stored in its header. -/
theorem C6_amended :
    (∀ (env : Env) (dirPath v r hashF : String),
      env.dirExists = true →
      (isInsideDir v dirPath = true ∨ isInsideDir r dirPath = true ∨ v = r) →
      initializeRun env dirPath v r hashF = ([], .error .pathConflict))
    ∧ (∀ (env : Env) (text v r dirPath hashF : String) (s4 : VStream) (l4 : String),
      decodeHeader text = .ok (dirPath, hashF, s4, l4) →
      (isInsideDir v dirPath = true ∨ isInsideDir r dirPath = true ∨ v = r) →
      verifyRun env (some text) v r
        = ([Event.readVFile v], .error .pathConflict)) := by
  constructor
  · intro env dirPath v r hashF hdir h
    apply initializeRun_pathConflict hdir
    rcases h with h | h | h
    · exact Or.inl (strContains_of_isInside h)
    · exact Or.inr (Or.inl (strContains_of_isInside h))
    · exact Or.inr (Or.inr h)
  · intro env text v r dirPath hashF s4 l4 hdec h
    apply verifyRun_pathConflict hdec
    rcases h with h | h | h
    · exact Or.inl (strContains_of_isInside h)
    · exact Or.inr (Or.inl (strContains_of_isInside h))
    · exact Or.inr (Or.inr h)

/-- C6 witness: scenario E concretely, plus the verification-mode conflict. -/
theorem C6_amended_witness :
    initializeRun envC1 "/data" "/data/snap.tsv" "/r.txt" "md5"
      = ([], .error .pathConflict)
    ∧ verifyRun envC1 (some vtextC6) "/data/snap.tsv" "/r.txt"
      = ([Event.readVFile "/data/snap.tsv"], .error .pathConflict) := by
  constructor
  · exact C6_amended.1 envC1 "/data" "/data/snap.tsv" "/r.txt" "md5"
      rfl (Or.inl (by decide))
  · exact C6_amended.2 envC1 vtextC6 "/data/snap.tsv" "/r.txt" "/data" "md5"
      ⟨[], true⟩ colLine rfl (Or.inl (by decide))

/-- C7: over the keyed stores built from any two snapshots with clean
fields, a path is never in two of the three result sets of the diff, and a
path reported as changed always has at least one field-level discrepancy
among size, owner, group, permissions, last-modified and digest. -/
theorem C7_disjoint_and_modified_discrepancy
    (b c : List FileMetadata) (p : String)
    (hb : ∀ m ∈ b, cleanMeta m = true) (hcl : ∀ m ∈ c, cleanMeta m = true) :
    ¬ (p ∈ deletedFiles (storeOfMetas b) (storeOfMetas c)
        ∧ p ∈ newFiles (storeOfMetas b) (storeOfMetas c))
    ∧ ¬ (p ∈ deletedFiles (storeOfMetas b) (storeOfMetas c)
        ∧ p ∈ changedFiles (storeOfMetas b) (storeOfMetas c))
    ∧ ¬ (p ∈ newFiles (storeOfMetas b) (storeOfMetas c)
        ∧ p ∈ changedFiles (storeOfMetas b) (storeOfMetas c))
    ∧ (p ∈ changedFiles (storeOfMetas b) (storeOfMetas c)
        → discrepanciesFor (storeOfMetas b) (storeOfMetas c) p ≠ []) := by
  refine ⟨?_, ?_, ?_, ?_⟩
  · rintro ⟨hdel, hnew⟩
    obtain ⟨vl, hvm, _⟩ := mem_deletedFiles.mp hdel
    obtain ⟨dl, _, hvnone⟩ := mem_newFiles.mp hnew
    obtain ⟨w, hw⟩ := lookup_some_of_mem hvm
    rw [hvnone] at hw
    exact absurd hw (by simp)
  · rintro ⟨hdel, hchg⟩
    obtain ⟨vl, _, hdnone⟩ := mem_deletedFiles.mp hdel
    obtain ⟨vl2, _, dl, hdsome, _⟩ := mem_changedFiles.mp hchg
    rw [hdnone] at hdsome
    exact absurd hdsome (by simp)
  · rintro ⟨hnew, hchg⟩
    obtain ⟨dl, _, hvnone⟩ := mem_newFiles.mp hnew
    obtain ⟨vl, hvm, _⟩ := mem_changedFiles.mp hchg
    obtain ⟨w, hw⟩ := lookup_some_of_mem hvm
    rw [hvnone] at hw
    exact absurd hw (by simp)
  · intro hchg
    obtain ⟨vl, hvm, dl, hdsome, hne⟩ := mem_changedFiles.mp hchg
    rcases storeFold_mem (show (p, vl)
        ∈ b.foldl (fun a m => mapInsert a m.path (tsvLine m)) [] from hvm)
      with hvm' | hvm'
    · obtain ⟨m1, hm1, hpair⟩ := hvm'
      rw [Prod.mk.injEq] at hpair
      obtain ⟨hp1, hv1⟩ := hpair
      rcases storeFold_lookup_inv (show lookupM
          (c.foldl (fun a m => mapInsert a m.path (tsvLine m)) []) p = some dl
          from hdsome) with hd' | hd'
      · obtain ⟨m2, hm2, hp2, hd2⟩ := hd'
        have hlv : lookupM (storeOfMetas b) p = some vl :=
          lookup_eq_of_mem_sorted (storeOfMetas_sorted b) hvm
        rw [discrepanciesFor, hlv, hdsome]
        simp only [Option.getD_some]
        rw [hv1, hd2]
        apply fieldDiscrepancies_ne_nil (hb m1 hm1) (hcl m2 hm2)
        · exact hp1.symm.trans hp2.symm
        · rw [← hv1, ← hd2]
          exact hne
      · exact absurd hd' (by simp [lookupM])
    · exact absurd hvm' (by simp)

/-- C7 witness: the conclusion at a concrete pair of one-record snapshots
that share the path but differ in digest. -/
theorem C7_witness :
    ¬ ("/data/a" ∈ deletedFiles (storeOfMetas [mA]) (storeOfMetas [mA2])
        ∧ "/data/a" ∈ newFiles (storeOfMetas [mA]) (storeOfMetas [mA2]))
    ∧ ¬ ("/data/a" ∈ deletedFiles (storeOfMetas [mA]) (storeOfMetas [mA2])
        ∧ "/data/a" ∈ changedFiles (storeOfMetas [mA]) (storeOfMetas [mA2]))
    ∧ ¬ ("/data/a" ∈ newFiles (storeOfMetas [mA]) (storeOfMetas [mA2])
        ∧ "/data/a" ∈ changedFiles (storeOfMetas [mA]) (storeOfMetas [mA2]))
    ∧ ("/data/a" ∈ changedFiles (storeOfMetas [mA]) (storeOfMetas [mA2])
        → discrepanciesFor (storeOfMetas [mA]) (storeOfMetas [mA2]) "/data/a" ≠ []) :=
  C7_disjoint_and_modified_discrepancy [mA] [mA2] "/data/a" (by decide) (by decide)

/-- C8: for a path present in both stores, a digest difference alone is
reported: the path lands in the changed set and the hash message is in its
discrepancy list; conversely a timestamp-only or size-only difference with
an unchanged digest is likewise reported, with the corresponding message. -/
theorem C8_digest_and_metadata_changes (v d : List (String × String)) (p : String)
    (m1 m2 : FileMetadata)
    (h1 : lookupM v p = some (tsvLine m1)) (h2 : lookupM d p = some (tsvLine m2))
    (hc1 : cleanMeta m1 = true) (hc2 : cleanMeta m2 = true)
    (_hp1 : m1.path = p) (_hp2 : m2.path = p) :
    ((m1.sizeStr = m2.sizeStr ∧ m1.owner = m2.owner ∧ m1.group = m2.group
        ∧ m1.perms = m2.perms ∧ m1.mtime = m2.mtime ∧ m1.digest ≠ m2.digest)
      → p ∈ changedFiles v d
        ∧ (p ++ " hash is different: " ++ m1.digest ++ " " ++ m2.digest)
            ∈ discrepanciesFor v d p)
    ∧ ((m1.digest = m2.digest ∧ m1.mtime ≠ m2.mtime)
      → p ∈ changedFiles v d
        ∧ (p ++ " last modified time is different: " ++ m1.mtime ++ " " ++ m2.mtime)
            ∈ discrepanciesFor v d p)
    ∧ ((m1.digest = m2.digest ∧ m1.sizeStr ≠ m2.sizeStr)
      → p ∈ changedFiles v d
        ∧ (p ++ " file size is different: " ++ m1.sizeStr ++ " " ++ m2.sizeStr)
            ∈ discrepanciesFor v d p) := by
  have hmem : (p, tsvLine m1) ∈ v := mem_of_lookup_some h1
  have hdisc : discrepanciesFor v d p
      = fieldDiscrepancies p (tsvLine m1) (tsvLine m2) := by
    rw [discrepanciesFor, h1, h2]
    rfl
  refine ⟨?_, ?_, ?_⟩
  · rintro ⟨e1, e2, e3, e4, e5, ne6⟩
    have hlne : tsvLine m1 ≠ tsvLine m2 :=
      tsvLine_ne_of_field_ne hc1 hc2 (by tauto)
    refine ⟨mem_changedFiles.mpr ⟨_, hmem, _, h2, hlne⟩, ?_⟩
    rw [hdisc, fieldDiscrepancies_fields p hc1 hc2]
    simp [e1, e2, e3, e4, e5, ne6]
  · rintro ⟨e6, ne5⟩
    have hlne : tsvLine m1 ≠ tsvLine m2 :=
      tsvLine_ne_of_field_ne hc1 hc2 (by tauto)
    refine ⟨mem_changedFiles.mpr ⟨_, hmem, _, h2, hlne⟩, ?_⟩
    rw [hdisc, fieldDiscrepancies_fields p hc1 hc2]
    simp [ne5]
  · rintro ⟨e6, ne1⟩
    have hlne : tsvLine m1 ≠ tsvLine m2 :=
      tsvLine_ne_of_field_ne hc1 hc2 (by tauto)
    refine ⟨mem_changedFiles.mpr ⟨_, hmem, _, h2, hlne⟩, ?_⟩
    rw [hdisc, fieldDiscrepancies_fields p hc1 hc2]
    simp [ne1]

/-- C8 witness: the conclusion at concrete one-record stores whose records
agree on everything except the digest. -/
theorem C8_witness :
    ((mA.sizeStr = mA2.sizeStr ∧ mA.owner = mA2.owner ∧ mA.group = mA2.group
        ∧ mA.perms = mA2.perms ∧ mA.mtime = mA2.mtime ∧ mA.digest ≠ mA2.digest)
      → "/data/a" ∈ changedFiles vC8 dC8
        ∧ ("/data/a" ++ " hash is different: " ++ mA.digest ++ " " ++ mA2.digest)
            ∈ discrepanciesFor vC8 dC8 "/data/a")
    ∧ ((mA.digest = mA2.digest ∧ mA.mtime ≠ mA2.mtime)
      → "/data/a" ∈ changedFiles vC8 dC8
        ∧ ("/data/a" ++ " last modified time is different: " ++ mA.mtime ++ " " ++ mA2.mtime)
            ∈ discrepanciesFor vC8 dC8 "/data/a")
    ∧ ((mA.digest = mA2.digest ∧ mA.sizeStr ≠ mA2.sizeStr)
      → "/data/a" ∈ changedFiles vC8 dC8
        ∧ ("/data/a" ++ " file size is different: " ++ mA.sizeStr ++ " " ++ mA2.sizeStr)
            ∈ discrepanciesFor vC8 dC8 "/data/a") :=
  C8_digest_and_metadata_changes vC8 dC8 "/data/a" mA mA2 rfl rfl
    (by decide) (by decide) rfl rfl

/-- C9: the diff of this embedding is a pure function of the two stores, so
two runs on identical inputs give the same report; the substance proved
here is the ordering policy: over sorted stores the three result lists are
in strictly increasing lexicographic path order, and every discrepancy list
is a sublist of the six field messages in the fixed source order size,
owner, group, access rights, last-modified, hash. -/
theorem C9_deterministic_ordering (v d : List (String × String))
    (hv : mapSorted v) (hd : mapSorted d) :
    pathSorted (deletedFiles v d) ∧ pathSorted (newFiles v d)
    ∧ pathSorted (changedFiles v d)
    ∧ (∀ name vl dl, (fieldDiscrepancies name vl dl).Sublist
        [name ++ " file size is different: " ++ (splitTab vl).getD 1 "" ++ " "
           ++ (splitTab dl).getD 1 "",
         name ++ " owner is different: " ++ (splitTab vl).getD 2 "" ++ " "
           ++ (splitTab dl).getD 2 "",
         name ++ " group is different: " ++ (splitTab vl).getD 3 "" ++ " "
           ++ (splitTab dl).getD 3 "",
         name ++ " access rights are different: " ++ (splitTab vl).getD 4 "" ++ " "
           ++ (splitTab dl).getD 4 "",
         name ++ " last modified time is different: " ++ (splitTab vl).getD 5 "" ++ " "
           ++ (splitTab dl).getD 5 "",
         name ++ " hash is different: " ++ (splitTab vl).getD 6 "" ++ " "
           ++ (splitTab dl).getD 6 ""]) :=
  ⟨deletedFiles_sorted hv, newFiles_sorted hd, changedFiles_sorted hv,
   fun name vl dl => fieldDiscrepancies_sublist name vl dl⟩

/-- C9 witness: the ordering conclusion at concrete sorted stores. -/
theorem C9_witness :
    pathSorted (deletedFiles [("/a", "x")] [("/b", "y")])
    ∧ pathSorted (newFiles [("/a", "x")] [("/b", "y")])
    ∧ pathSorted (changedFiles [("/a", "x")] [("/b", "y")])
    ∧ (∀ name vl dl, (fieldDiscrepancies name vl dl).Sublist
        [name ++ " file size is different: " ++ (splitTab vl).getD 1 "" ++ " "
           ++ (splitTab dl).getD 1 "",
         name ++ " owner is different: " ++ (splitTab vl).getD 2 "" ++ " "
           ++ (splitTab dl).getD 2 "",
         name ++ " group is different: " ++ (splitTab vl).getD 3 "" ++ " "
           ++ (splitTab dl).getD 3 "",
         name ++ " access rights are different: " ++ (splitTab vl).getD 4 "" ++ " "
           ++ (splitTab dl).getD 4 "",
         name ++ " last modified time is different: " ++ (splitTab vl).getD 5 "" ++ " "
           ++ (splitTab dl).getD 5 "",
         name ++ " hash is different: " ++ (splitTab vl).getD 6 "" ++ " "
           ++ (splitTab dl).getD 6 ""]) :=
  C9_deterministic_ordering [("/a", "x")] [("/b", "y")] (by decide) (by decide)

/-- C10: the conflict precondition is a plain substring test, so a report
path that merely contains the monitored-directory path as a substring,
without being inside that directory and without being equal to it, is still
rejected as a path conflict before anything else happens. -/
theorem C10_substring_conflict_false_positive
    (env : Env) (dirPath vFilePath rFilePath hashF : String)
    (hdir : env.dirExists = true)
    (hv : strContains vFilePath dirPath = false)
    (hr : strContains rFilePath dirPath = true)
    (_hnd : isInsideDir rFilePath dirPath = false)
    (_hne : rFilePath ≠ dirPath) :
    initializeRun env dirPath vFilePath rFilePath hashF
      = ([], .error .pathConflict) := by
  rw [initializeRun, if_neg (by simp [hdir]), if_neg (by simp [hv]), if_pos hr]

/-- C10 witness: directory /data and report path /backup/data-report.txt,
which is not inside /data yet contains the string /data, is rejected. -/
theorem C10_witness :
    initializeRun envC1 "/data" "/v.tsv" "/backup/data-report.txt" "md5"
      = ([], .error .pathConflict) :=
  C10_substring_conflict_false_positive envC1 "/data" "/v.tsv"
    "/backup/data-report.txt" "md5" rfl (by decide) (by decide) (by decide) (by decide)

end Siv
